import Mathlib

/-!
# Verification of the Cloudberry airline demo data generators

Shallow embedding of `src/data-generator.py` (the "simple" variant) and
`src/enhanced-data-loader.py` (the "enhanced" variant).  Every Python
`random.*` draw is modelled by an explicit oracle ("tape"): a function from
the loop position and draw slot to the drawn value.  `random.randint(a,b)`
is modelled as `a + t % (b - a + 1)` and `random.choice(lst)` as indexing by
`t % lst.length`, which realises exactly the support of the source's draws.
Timestamps are minutes on an integer (simple variant) or rational (enhanced
variant, whose durations are fractional hours) time axis.
-/

set_option maxRecDepth 4000

namespace AirlineDemo

/-- Characters of the decimal representation of `n`, most significant first.
Models Python's `str(i)` as used inside f-strings. -/
def decChars (n : Nat) : List Char :=
  if n = 0 then ['0'] else ((Nat.digits 10 n).map (fun d => Char.ofNat (48 + d))).reverse

/-- Decimal representation of `n` as a string; models Python's `str(n)`. -/
def decRepr (n : Nat) : String := ⟨decChars n⟩

theorem digitChar_isDigit {d : Nat} (h : d < 10) : (Char.ofNat (48 + d)).isDigit = true := by
  interval_cases d <;> decide

theorem digitChar_inj {d e : Nat} (hd : d < 10) (he : e < 10)
    (h : Char.ofNat (48 + d) = Char.ofNat (48 + e)) : d = e := by
  interval_cases d <;> interval_cases e <;> first | rfl | (exfalso; exact absurd h (by decide))

theorem decChars_isDigit {n : Nat} : ∀ c ∈ decChars n, c.isDigit = true := by
  intro c hc
  unfold decChars at hc
  split at hc
  · simp only [List.mem_singleton] at hc
    subst hc; decide
  · simp only [List.mem_reverse, List.mem_map] at hc
    obtain ⟨d, hd, rfl⟩ := hc
    exact digitChar_isDigit (Nat.digits_lt_base (by norm_num) hd)

theorem decChars_ne_nil (n : Nat) : decChars n ≠ [] := by
  unfold decChars
  split
  · simp
  · simp only [ne_eq, List.reverse_eq_nil_iff, List.map_eq_nil_iff]
    exact Nat.digits_ne_nil_iff_ne_zero.mpr (by assumption)

theorem mapDigitChar_inj : ∀ (l₁ l₂ : List Nat), (∀ x ∈ l₁, x < 10) → (∀ x ∈ l₂, x < 10) →
    l₁.map (fun d => Char.ofNat (48 + d)) = l₂.map (fun d => Char.ofNat (48 + d)) → l₁ = l₂ := by
  intro l₁
  induction l₁ with
  | nil => intro l₂ _ _ h; cases l₂ <;> simp_all
  | cons a t ih =>
    intro l₂ h₁ h₂ h
    cases l₂ with
    | nil => simp at h
    | cons b u =>
      simp only [List.map_cons, List.cons.injEq] at h
      have hab : a = b :=
        digitChar_inj (h₁ a (by simp)) (h₂ b (by simp)) h.1
      have : t = u := ih u (fun x hx => h₁ x (by simp [hx])) (fun x hx => h₂ x (by simp [hx])) h.2
      rw [hab, this]

theorem decChars_inj {m n : Nat} (h : decChars m = decChars n) : m = n := by
  unfold decChars at h
  by_cases hm : m = 0 <;> by_cases hn : n = 0
  · omega
  · exfalso
    rw [if_pos hm, if_neg hn] at h
    have : (Nat.digits 10 n).map (fun d => Char.ofNat (48 + d)) = ['0'] := by
      have := congrArg List.reverse h
      simpa using this.symm
    have hdig : Nat.digits 10 n = [0] := by
      cases hd : Nat.digits 10 n with
      | nil => rw [hd] at this; simp at this
      | cons a t =>
        rw [hd] at this
        cases t with
        | nil =>
          simp only [List.map_cons, List.map_nil, List.cons.injEq] at this
          have ha : a = 0 := by
            have halt : a < 10 := Nat.digits_lt_base (by norm_num) (by rw [hd]; simp)
            have h0 : Char.ofNat (48 + a) = Char.ofNat (48 + 0) := by
              simpa using this.1
            exact digitChar_inj halt (by norm_num) h0
          rw [ha]
        | cons b u => simp at this
    have := Nat.ofDigits_digits 10 n
    rw [hdig] at this
    simp [Nat.ofDigits] at this
    omega
  · exfalso
    rw [if_neg hm, if_pos hn] at h
    have : (Nat.digits 10 m).map (fun d => Char.ofNat (48 + d)) = ['0'] := by
      have := congrArg List.reverse h
      simpa using this
    have hdig : Nat.digits 10 m = [0] := by
      cases hd : Nat.digits 10 m with
      | nil => rw [hd] at this; simp at this
      | cons a t =>
        rw [hd] at this
        cases t with
        | nil =>
          simp only [List.map_cons, List.map_nil, List.cons.injEq] at this
          have ha : a = 0 := by
            have halt : a < 10 := Nat.digits_lt_base (by norm_num) (by rw [hd]; simp)
            have h0 : Char.ofNat (48 + a) = Char.ofNat (48 + 0) := by
              simpa using this.1
            exact digitChar_inj halt (by norm_num) h0
          rw [ha]
        | cons b u => simp at this
    have := Nat.ofDigits_digits 10 m
    rw [hdig] at this
    simp [Nat.ofDigits] at this
    omega
  · rw [if_neg hm, if_neg hn] at h
    have h' := congrArg List.reverse h
    simp only [List.reverse_reverse] at h'
    have := mapDigitChar_inj _ _
      (fun x hx => Nat.digits_lt_base (by norm_num) hx)
      (fun x hx => Nat.digits_lt_base (by norm_num) hx) h'
    calc m = Nat.ofDigits 10 (Nat.digits 10 m) := (Nat.ofDigits_digits 10 m).symm
      _ = Nat.ofDigits 10 (Nat.digits 10 n) := by rw [this]
      _ = n := Nat.ofDigits_digits 10 n

theorem decRepr_inj {m n : Nat} (h : decRepr m = decRepr n) : m = n :=
  decChars_inj (congrArg String.data h)

/-- Splitting a character list at the first non-digit character is unambiguous:
if two decompositions `digits ++ rest` agree, the digit prefixes agree. -/
theorem append_digit_split : ∀ (a₁ a₂ b₁ b₂ : List Char),
    (∀ c ∈ a₁, c.isDigit = true) → (∀ c ∈ a₂, c.isDigit = true) →
    (∀ c, b₁.head? = some c → c.isDigit = false) →
    (∀ c, b₂.head? = some c → c.isDigit = false) →
    a₁ ++ b₁ = a₂ ++ b₂ → a₁ = a₂ ∧ b₁ = b₂ := by
  intro a₁
  induction a₁ with
  | nil =>
    intro a₂ b₁ b₂ _ h₂ g₁ _ e
    cases a₂ with
    | nil => exact ⟨rfl, e⟩
    | cons c t =>
      exfalso
      simp only [List.nil_append, List.cons_append] at e
      have hc : c.isDigit = true := h₂ c (by simp)
      have hc' : c.isDigit = false := g₁ c (by rw [e]; rfl)
      rw [hc] at hc'; exact Bool.noConfusion hc'
  | cons c t ih =>
    intro a₂ b₁ b₂ h₁ h₂ g₁ g₂ e
    cases a₂ with
    | nil =>
      exfalso
      simp only [List.cons_append, List.nil_append] at e
      have hc : c.isDigit = true := h₁ c (by simp)
      have hc' : c.isDigit = false := g₂ c (by rw [← e]; rfl)
      rw [hc] at hc'; exact Bool.noConfusion hc'
    | cons c' t' =>
      simp only [List.cons_append, List.cons.injEq] at e
      obtain ⟨rfl, e'⟩ := e
      have := ih t' b₁ b₂ (fun x hx => h₁ x (by simp [hx]))
        (fun x hx => h₂ x (by simp [hx])) g₁ g₂ e'
      exact ⟨by rw [this.1], this.2⟩

/-! ## Fixed data pools of `data-generator.py` -/

/-- `FIRST_NAMES` from `src/data-generator.py`. -/
def FIRST_NAMES : List String :=
  ["John", "Jane", "Michael", "Sarah", "David", "Lisa", "Robert", "Emily",
   "James", "Jessica", "William", "Ashley", "Christopher", "Amanda", "Daniel",
   "Melissa", "Matthew", "Deborah", "Anthony", "Dorothy", "Mark", "Amy",
   "Donald", "Angela", "Steven", "Helen", "Paul", "Brenda", "Andrew", "Emma",
   "Joshua", "Olivia", "Kenneth", "Cynthia", "Kevin", "Marie", "Brian",
   "Janet", "George", "Catherine", "Timothy", "Frances", "Ronald", "Christine",
   "Jason", "Samantha", "Edward", "Debra", "Jeffrey", "Rachel"]

/-- `LAST_NAMES` from `src/data-generator.py`. -/
def LAST_NAMES : List String :=
  ["Smith", "Johnson", "Williams", "Brown", "Jones", "Garcia", "Miller",
   "Davis", "Rodriguez", "Martinez", "Hernandez", "Lopez", "Gonzalez",
   "Wilson", "Anderson", "Thomas", "Taylor", "Moore", "Jackson", "Martin",
   "Lee", "Perez", "Thompson", "White", "Harris", "Sanchez", "Clark",
   "Ramirez", "Lewis", "Robinson", "Walker", "Young", "Allen", "King",
   "Wright", "Scott", "Torres", "Nguyen", "Hill", "Flores", "Green",
   "Adams", "Nelson", "Baker", "Hall", "Rivera", "Campbell", "Mitchell",
   "Carter", "Roberts"]

/-- `AIRPORTS` from `src/data-generator.py`: code, city name, latitude, longitude
(in insertion order of the dict literal). -/
def AIRPORTS : List (String × String × ℚ × ℚ) :=
  [("JFK", "New York JFK", 406413/10000, -737781/10000),
   ("LAX", "Los Angeles", 339428/10000, -1184081/10000),
   ("ORD", "Chicago OHare", 419742/10000, -879073/10000),
   ("DFW", "Dallas Fort Worth", 328998/10000, -970403/10000),
   ("DEN", "Denver", 398561/10000, -1046737/10000),
   ("ATL", "Atlanta", 336407/10000, -844277/10000),
   ("SFO", "San Francisco", 376213/10000, -1223790/10000),
   ("SEA", "Seattle", 474502/10000, -1223088/10000),
   ("LAS", "Las Vegas", 360840/10000, -1151537/10000),
   ("MCO", "Orlando", 284312/10000, -813081/10000),
   ("EWR", "Newark", 406895/10000, -741745/10000),
   ("CLT", "Charlotte", 352144/10000, -809473/10000),
   ("PHX", "Phoenix", 334484/10000, -1120740/10000),
   ("IAH", "Houston Intercontinental", 299902/10000, -953368/10000),
   ("MIA", "Miami", 257959/10000, -802870/10000),
   ("BOS", "Boston", 423656/10000, -710096/10000),
   ("MSP", "Minneapolis", 448818/10000, -932044/10000),
   ("DTW", "Detroit", 422162/10000, -833554/10000),
   ("PHL", "Philadelphia", 398744/10000, -752424/10000),
   ("LGA", "New York LaGuardia", 407769/10000, -738740/10000),
   ("FLL", "Fort Lauderdale", 260742/10000, -801506/10000),
   ("BWI", "Baltimore", 391774/10000, -766684/10000),
   ("IAD", "Washington Dulles", 389531/10000, -774565/10000),
   ("MDW", "Chicago Midway", 417868/10000, -877522/10000),
   ("TPA", "Tampa", 279755/10000, -825332/10000),
   ("SAN", "San Diego", 327338/10000, -1171933/10000),
   ("HNL", "Honolulu", 213099/10000, -1578581/10000),
   ("PDX", "Portland", 455898/10000, -1225951/10000),
   ("STL", "St. Louis", 387487/10000, -903700/10000),
   ("AUS", "Austin", 301975/10000, -976664/10000)]

/-- `list(AIRPORTS.keys())` as used by `generate_flights`. -/
def airportCodes : List String := AIRPORTS.map (·.1)

/-- First-match lookup in an association list; with pairwise-distinct keys this
is exactly Python dict lookup. -/
def lookupKey {α : Type} : List ((String × String) × α) → String × String → Option α
  | [], _ => none
  | (k', v) :: rest, k => if k = k' then some v else lookupKey rest k

theorem lookupKey_mem {α : Type} {table : List ((String × String) × α)}
    {k : String × String} {v : α} (h : lookupKey table k = some v) : (k, v) ∈ table := by
  induction table with
  | nil => simp [lookupKey] at h
  | cons e rest ih =>
    obtain ⟨k', v'⟩ := e
    unfold lookupKey at h
    split at h
    · next heq =>
        subst heq
        obtain rfl := Option.some.inj h
        exact List.mem_cons_self _ _
    · exact List.mem_cons_of_mem _ (ih h)

/-- Order-insensitive table lookup: try `(a, b)` first, then `(b, a)`.
Models the `if key in map ... elif reverse_key in map` pattern shared by
`calculate_flight_duration` and `_estimate_flight_duration`. -/
def lookupPair {α : Type} (table : List ((String × String) × α)) (a b : String) : Option α :=
  match lookupKey table (a, b) with
  | some v => some v
  | none => lookupKey table (b, a)

/-- `distance_factors` inside `calculate_flight_duration` (durations in hours). -/
def distanceFactors : List ((String × String) × ℕ) :=
  [(("JFK", "LAX"), 6), (("JFK", "SFO"), 6), (("JFK", "SEA"), 6),
   (("JFK", "DEN"), 4), (("JFK", "ORD"), 2), (("JFK", "ATL"), 2),
   (("LAX", "SFO"), 1), (("LAX", "LAS"), 1), (("LAX", "PHX"), 2),
   (("ORD", "DEN"), 2), (("ORD", "ATL"), 2), (("ORD", "DFW"), 2),
   (("ATL", "MIA"), 2), (("ATL", "MCO"), 1), (("DFW", "LAX"), 3),
   (("DEN", "SFO"), 2), (("DEN", "SEA"), 2), (("SEA", "SFO"), 2),
   (("BOS", "JFK"), 1), (("IAD", "ATL"), 2), (("PHL", "ORD"), 2)]

/-- `calculate_flight_duration` of `src/data-generator.py`.  The oracle `t`
feeds the `random.randint(1, 5)` fallback, modelled as `1 + t % 5`. -/
def calculate_flight_duration (origin destination : String) (t : Nat) : Nat :=
  if origin = destination then 0
  else
    match lookupPair distanceFactors origin destination with
    | some v => v
    | none => 1 + t % 5

/-! ## Duration data of `enhanced-data-loader.py` -/

/-- `hub_weights` inside `generate_realistic_flights`. -/
def hubWeights : List (String × ℚ) :=
  [("ATL", 3), ("ORD", mkRat 28 10), ("LAX", mkRat 25 10), ("DFW", mkRat 23 10), ("DEN", 2),
   ("JFK", mkRat 22 10), ("SFO", mkRat 18 10), ("SEA", mkRat 15 10), ("LAS", mkRat 17 10),
   ("PHX", mkRat 14 10), ("IAH", mkRat 16 10), ("MCO", mkRat 13 10), ("MIA", mkRat 12 10),
   ("BOS", mkRat 14 10), ("EWR", mkRat 13 10)]

/-- First-match lookup in a string-keyed association list. -/
def lookupStr : List (String × ℚ) → String → Option ℚ
  | [], _ => none
  | (k', v) :: rest, k => if k = k' then some v else lookupStr rest k

/-- `hub_weights.get(code, 1.0)`. -/
def hubWeight (code : String) : ℚ := (lookupStr hubWeights code).getD 1

/-- `duration_map` inside `_estimate_flight_duration` (hours, fractional). -/
def durationMap : List ((String × String) × ℚ) :=
  [(("JFK", "LAX"), 6), (("JFK", "SFO"), mkRat 65 10), (("JFK", "SEA"), mkRat 65 10),
   (("JFK", "DEN"), mkRat 45 10), (("JFK", "ORD"), mkRat 25 10), (("JFK", "ATL"), mkRat 25 10),
   (("LAX", "SFO"), mkRat 15 10), (("LAX", "LAS"), mkRat 12 10), (("LAX", "PHX"), mkRat 15 10),
   (("LAX", "DEN"), mkRat 25 10), (("LAX", "ORD"), 4), (("LAX", "ATL"), mkRat 45 10),
   (("ORD", "DEN"), mkRat 25 10), (("ORD", "ATL"), 2), (("ORD", "DFW"), mkRat 25 10),
   (("ATL", "MIA"), 2), (("ATL", "MCO"), mkRat 15 10), (("ATL", "BOS"), mkRat 25 10),
   (("DFW", "LAX"), 3), (("DFW", "PHX"), 2), (("DFW", "DEN"), mkRat 15 10),
   (("DEN", "SFO"), mkRat 25 10), (("DEN", "SEA"), 2), (("DEN", "PHX"), mkRat 15 10),
   (("SFO", "SEA"), 2), (("SFO", "LAS"), mkRat 15 10), (("SFO", "PHX"), 2),
   (("SEA", "LAX"), mkRat 25 10), (("SEA", "DEN"), 2), (("SEA", "SFO"), 2),
   (("BOS", "JFK"), mkRat 12 10), (("BOS", "ATL"), mkRat 25 10), (("BOS", "ORD"), 3),
   (("MIA", "JFK"), 3), (("MIA", "ATL"), 2), (("MIA", "MCO"), 1)]

/-- `AirlineDataLoader._estimate_flight_duration`.  The parameter `u` is the
value the `random.uniform(1.5, 5.5)` fallback would draw. -/
def estimateFlightDuration (origin dest : String) (u : ℚ) : ℚ :=
  (lookupPair durationMap origin dest).getD u

/-! ## Flight generators

Timestamps are minutes: `datetime.combine(base_date + days, time(h, m))` is
`(baseDate + days) * 1440 + h * 60 + m` minutes, with `baseDate` the day number
of `datetime.date.today()` at the time of the run. -/

/-- A row of `flights.csv` from `generate_flights` (timestamps in minutes). -/
structure FlightS where
  id : Nat
  flightNumber : String
  origin : String
  destination : String
  dep : Int
  arr : Int
  deriving DecidableEq

/-- Loop body of `generate_flights` for 1-based iteration `i`; `t k` is the
`k`-th random draw of the iteration. -/
def mkFlightSimple (baseDate : Int) (i : Nat) (t : Nat → Nat) : FlightS :=
  let origin := airportCodes.getD (t 0 % airportCodes.length) ""
  let others := airportCodes.filter (fun a => a ≠ origin)
  let destination := others.getD (t 1 % others.length) ""
  let airlineCode := ["AA", "DL", "UA", "SW", "AS", "B6"].getD (t 2 % 6) ""
  let flightNumber := airlineCode ++ decRepr (1000 + t 3 % 9000)
  let dep : Int := (baseDate + (t 4 % 31 : Nat)) * 1440 + (6 + t 5 % 17 : Nat) * 60
    + ([0, 15, 30, 45].getD (t 6 % 4) 0 : Nat)
  let dur := calculate_flight_duration origin destination (t 7)
  let arr : Int := dep + dur * 60 + (t 8 % 31 : Nat)
  ⟨i, flightNumber, origin, destination, dep, arr⟩

/-- `generate_flights` of `src/data-generator.py`: one flight is appended at
every iteration `i = 1 .. count`. -/
def generate_flights (count : Nat) (baseDate : Int) (t : Nat → Nat → Nat) : List FlightS :=
  (List.range count).map (fun i0 => mkFlightSimple baseDate (i0 + 1) (t (i0 + 1)))

/-- A route kept by the enhanced loader: operating airline plus the
origin/destination pair. -/
structure Route where
  airline : String
  origin : String
  destination : String
  deriving DecidableEq

/-- A flight dict from `generate_realistic_flights` (timestamps in minutes,
rational because durations are fractional hours). -/
structure FlightE where
  id : Nat
  flightNumber : String
  airline : String
  origin : String
  destination : String
  dep : ℚ
  arr : ℚ
  deriving DecidableEq

/-- `f"{flight_num:04d}"`: decimal digits zero-padded to width 4. -/
def pad4 (n : Nat) : String :=
  ⟨List.replicate (4 - (decChars n).length) '0' ++ decChars n⟩

/-- Loop body of `generate_realistic_flights` for 0-based iteration `i`:
`none` models the `continue` that discards a candidate whose combined hub
weight loses the retention draw (`random.random() > combined_weight / 3.0`).
`tI` are the integer draws, `tR 0` the `random.random()` retention draw and
`tR 1` the `random.uniform(1.5, 5.5)` duration fallback.  The departure hour
is `random.choices(range(24), hour_weights)`: every one of the 24 weights is
positive, so the support is all of `0..23`, modelled as `tI 3 % 24`.  On an
empty catalog the source raises `IndexError` (a fatal precondition per the
spec); the default route below is unreachable for a nonempty catalog. -/
def mkRealisticFlight (baseDate : Int) (routes : List Route) (i : Nat)
    (tI : Nat → Nat) (tR : Nat → ℚ) : Option FlightE :=
  let route := routes.getD (tI 0 % routes.length) ⟨"", "", ""⟩
  let originWeight := hubWeight route.origin
  let destWeight := hubWeight route.destination
  let combinedWeight := (originWeight + destWeight) / 2
  if tR 0 > combinedWeight / 3 then none
  else
    let flightNumber := route.airline ++ pad4 (1 + tI 1 % 9999)
    let dep : ℚ := ((baseDate + (tI 2 % 31 : Nat)) * 1440 + (tI 3 % 24) * 60
      + ([0, 15, 30, 45].getD (tI 4 % 4) 0 : Nat) : Int)
    let dur := estimateFlightDuration route.origin route.destination (tR 1)
    let arr : ℚ := dep + dur * 60 + ((-15 + (tI 5 % 61 : Nat) : Int) : ℚ)
    some ⟨i + 1, flightNumber, route.airline, route.origin, route.destination, dep, arr⟩

/-- `AirlineDataLoader.generate_realistic_flights`: the loop runs exactly
`count` iterations, skipping rejected candidates, and ends with
`return flights[:count]`. -/
def generate_realistic_flights (count : Nat) (baseDate : Int) (routes : List Route)
    (tI : Nat → Nat → Nat) (tR : Nat → Nat → ℚ) : List FlightE :=
  ((List.range count).filterMap (fun i => mkRealisticFlight baseDate routes i (tI i) (tR i))).take count

/-! ## Temporal ordering of generated flights -/

theorem lookupPair_mem {α : Type} {tbl : List ((String × String) × α)} {a b : String} {v : α}
    (h : lookupPair tbl a b = some v) : ((a, b), v) ∈ tbl ∨ ((b, a), v) ∈ tbl := by
  unfold lookupPair at h
  split at h
  · next v' heq => exact Or.inl (Option.some.inj h ▸ lookupKey_mem heq)
  · exact Or.inr (lookupKey_mem h)

theorem distanceFactors_ge_one : ∀ e ∈ distanceFactors, 1 ≤ e.2 := by decide

theorem durationMap_ge_one : ∀ e ∈ durationMap, 1 ≤ e.2 := by decide

theorem getD_mod_mem {α : Type} (l : List α) (n : Nat) (d : α) (h : l ≠ []) :
    l.getD (n % l.length) d ∈ l := by
  have hl : 0 < l.length := List.length_pos.mpr h
  have hlt : n % l.length < l.length := Nat.mod_lt _ hl
  rw [List.getD_eq_getElem l d hlt]
  exact List.getElem_mem hlt

theorem calculate_flight_duration_ge_one (a b : String) (t : Nat) (hne : a ≠ b) :
    1 ≤ calculate_flight_duration a b t := by
  unfold calculate_flight_duration
  rw [if_neg hne]
  split
  · next v heq =>
      rcases lookupPair_mem heq with hm | hm
      · exact distanceFactors_ge_one _ hm
      · exact distanceFactors_ge_one _ hm
  · omega

theorem estimateFlightDuration_ge_one (a b : String) (u : ℚ) (hu : 3/2 ≤ u) :
    1 ≤ estimateFlightDuration a b u := by
  unfold estimateFlightDuration
  cases heq : lookupPair durationMap a b with
  | none => simpa using le_trans (by norm_num) hu
  | some v =>
      simp only [Option.getD_some]
      rcases lookupPair_mem heq with hm | hm
      · exact durationMap_ge_one _ hm
      · exact durationMap_ge_one _ hm

theorem airports_filter_ne_nil (x : String) :
    airportCodes.filter (fun a => a ≠ x) ≠ [] := by
  by_cases hJ : x = "JFK"
  · refine List.ne_nil_of_mem (a := "LAX") ?_
    rw [List.mem_filter, hJ]
    exact ⟨by decide, by decide⟩
  · refine List.ne_nil_of_mem (a := "JFK") ?_
    rw [List.mem_filter]
    exact ⟨by decide, by simpa using fun h => hJ h.symm⟩

theorem mkFlightSimple_origin_ne_destination (baseDate : Int) (i : Nat) (t : Nat → Nat) :
    (mkFlightSimple baseDate i t).origin ≠ (mkFlightSimple baseDate i t).destination := by
  unfold mkFlightSimple
  simp only
  intro hcontra
  have hne := airports_filter_ne_nil (airportCodes.getD (t 0 % airportCodes.length) "")
  have hmem := getD_mod_mem
    (airportCodes.filter (fun a => a ≠ airportCodes.getD (t 0 % airportCodes.length) ""))
    (t 1) "" hne
  have hx := (List.mem_filter.mp hmem).2
  exact (of_decide_eq_true hx) hcontra.symm

theorem mkFlightSimple_dep_lt_arr (baseDate : Int) (i : Nat) (t : Nat → Nat) :
    (mkFlightSimple baseDate i t).dep < (mkFlightSimple baseDate i t).arr := by
  have hne := mkFlightSimple_origin_ne_destination baseDate i t
  unfold mkFlightSimple at hne ⊢
  simp only at hne ⊢
  have hdur := calculate_flight_duration_ge_one _ _ (t 7) hne
  set dur := calculate_flight_duration _ _ (t 7)
  omega

theorem generate_flights_dep_lt_arr (count : Nat) (baseDate : Int) (t : Nat → Nat → Nat) :
    ∀ f ∈ generate_flights count baseDate t, f.dep < f.arr := by
  intro f hf
  unfold generate_flights at hf
  simp only [List.mem_map] at hf
  obtain ⟨i0, _, rfl⟩ := hf
  exact mkFlightSimple_dep_lt_arr baseDate (i0 + 1) (t (i0 + 1))

theorem mkRealisticFlight_dep_lt_arr (baseDate : Int) (routes : List Route) (i : Nat)
    (tI : Nat → Nat) (tR : Nat → ℚ) (hu : 3/2 ≤ tR 1) (f : FlightE)
    (h : mkRealisticFlight baseDate routes i tI tR = some f) : f.dep < f.arr := by
  simp only [mkRealisticFlight] at h
  split at h
  · exact absurd h (by simp)
  · obtain rfl := Option.some.inj h
    simp only
    have hdur := estimateFlightDuration_ge_one
      (routes.getD (tI 0 % routes.length) ⟨"", "", ""⟩).origin
      (routes.getD (tI 0 % routes.length) ⟨"", "", ""⟩).destination (tR 1) hu
    set dur := estimateFlightDuration _ _ (tR 1)
    have hjit : (-15 : ℚ) ≤ ((-15 + (tI 5 % 61 : Nat) : Int) : ℚ) := by
      have h15 : (-15 : ℤ) ≤ (-15 + (tI 5 % 61 : Nat) : ℤ) := by omega
      exact_mod_cast h15
    linarith

theorem generate_realistic_flights_dep_lt_arr (count : Nat) (baseDate : Int)
    (routes : List Route) (tI : Nat → Nat → Nat) (tR : Nat → Nat → ℚ)
    (hu : ∀ i, 3/2 ≤ tR i 1) :
    ∀ f ∈ generate_realistic_flights count baseDate routes tI tR, f.dep < f.arr := by
  intro f hf
  unfold generate_realistic_flights at hf
  have hf' := List.mem_of_mem_take hf
  simp only [List.mem_filterMap] at hf'
  obtain ⟨i, _, hi⟩ := hf'
  exact mkRealisticFlight_dep_lt_arr baseDate routes i (tI i) (tR i) (hu i) f hi

/-! ## Passenger generators

The email uniqueness loop is a `while candidate in used_emails` loop in both
sources.  It is modelled with explicit fuel: `none` means the source would
still be retrying after `fuel` candidate tests.  The termination theorems
below show the fuel given by the generators is never exhausted. -/

/-- `str.lower()` on the ASCII strings used by the sources. -/
def pyLower (s : String) : String :=
  ⟨s.data.map (fun c => if 'A' ≤ c ∧ c ≤ 'Z' then Char.ofNat (c.toNat + 32) else c)⟩

/-- `f"{first.lower()}.{last.lower()}{i}@airline-demo.com"`. -/
def mkBaseEmail (f l : String) (i : Nat) : String :=
  f ++ "." ++ l ++ decRepr i ++ "@airline-demo.com"

/-- `f"{first.lower()}.{last.lower()}{i}_{salt}@airline-demo.com"`. -/
def mkSaltedEmail (f l : String) (i salt : Nat) : String :=
  f ++ "." ++ l ++ decRepr i ++ "_" ++ decRepr salt ++ "@airline-demo.com"

/-- A name that lowercases to a nonempty string free of digits and
underscores; every pool name does (checked by `decide` below). -/
def GoodName (s : String) : Prop :=
  s ≠ "" ∧ ∀ c ∈ s.data, c.isDigit = false ∧ c ≠ '_'

instance (s : String) : Decidable (GoodName s) := by
  unfold GoodName; infer_instance

theorem firstNames_good : ∀ s ∈ FIRST_NAMES, GoodName (pyLower s) := by decide

theorem lastNames_good : ∀ s ∈ LAST_NAMES, GoodName (pyLower s) := by decide

theorem mkBaseEmail_data (f l : String) (i : Nat) :
    (mkBaseEmail f l i).data =
      ((f.data ++ '.' :: l.data) ++ decChars i) ++ "@airline-demo.com".data := by
  show (f.data ++ ".".data ++ l.data ++ decChars i ++ "@airline-demo.com".data) = _
  simp

theorem mkSaltedEmail_data (f l : String) (i salt : Nat) :
    (mkSaltedEmail f l i salt).data =
      f.data ++ '.' :: l.data ++ decChars i ++ '_' :: decChars salt
        ++ "@airline-demo.com".data := by
  show (f.data ++ ".".data ++ l.data ++ decChars i ++ "_".data ++ decChars salt
    ++ "@airline-demo.com".data) = _
  simp

/-- The reversed `first.last` block of a good name starts with a non-digit
(the last character of the last name). -/
theorem rev_name_head_nondigit {f l : List Char} (hl : l ≠ [])
    (hgood : ∀ c ∈ l, c.isDigit = false) :
    ∀ c, ((f ++ '.' :: l).reverse).head? = some c → c.isDigit = false := by
  intro c hc
  rw [List.reverse_append, List.reverse_cons] at hc
  cases hrev : l.reverse with
  | nil => exact absurd (List.reverse_eq_nil_iff.mp hrev) hl
  | cons c0 t =>
      rw [hrev] at hc
      simp only [List.cons_append, List.head?_cons, Option.some.injEq] at hc
      have hc0mem : c0 ∈ l := List.mem_reverse.mp (by rw [hrev]; simp)
      exact hc ▸ hgood c0 hc0mem

/-- Two indexed base emails built from good names agree only on equal indices:
the digit run before the fixed `@`-suffix is exactly the index. -/
theorem mkBaseEmail_idx_eq {f₁ l₁ f₂ l₂ : String} {i j : Nat}
    (h₁ : GoodName l₁) (h₂ : GoodName l₂)
    (h : mkBaseEmail f₁ l₁ i = mkBaseEmail f₂ l₂ j) : i = j := by
  have hd := congrArg String.data h
  rw [mkBaseEmail_data, mkBaseEmail_data] at hd
  have hcore := List.append_cancel_right hd
  have hrev : (decChars i).reverse ++ (f₁.data ++ '.' :: l₁.data).reverse
      = (decChars j).reverse ++ (f₂.data ++ '.' :: l₂.data).reverse := by
    rw [← List.reverse_append, ← List.reverse_append, hcore]
  have hl₁ : l₁.data ≠ [] := fun hh => h₁.1 (by cases l₁; simp_all)
  have hl₂ : l₂.data ≠ [] := fun hh => h₂.1 (by cases l₂; simp_all)
  have hsplit := append_digit_split ((decChars i).reverse) ((decChars j).reverse)
    ((f₁.data ++ '.' :: l₁.data).reverse) ((f₂.data ++ '.' :: l₂.data).reverse)
    (fun c hc => decChars_isDigit c (List.mem_reverse.mp hc))
    (fun c hc => decChars_isDigit c (List.mem_reverse.mp hc))
    (rev_name_head_nondigit hl₁ (fun c hc => (h₁.2 c hc).1))
    (rev_name_head_nondigit hl₂ (fun c hc => (h₂.2 c hc).1))
    hrev
  refine decChars_inj (m := i) (n := j) ?_
  have := congrArg List.reverse hsplit.1
  simpa using this

theorem digit_ne_underscore {c : Char} (h : c.isDigit = true) : c ≠ '_' := by
  intro he
  subst he
  exact absurd h (by decide)

theorem underscore_not_mem_base {f l : String} {i : Nat}
    (hf : GoodName f) (hl : GoodName l) : '_' ∉ (mkBaseEmail f l i).data := by
  rw [mkBaseEmail_data]
  intro hmem
  simp only [List.mem_append, List.mem_cons] at hmem
  rcases hmem with ((hfm | hdot | hlm) | hdec) | hsuf
  · exact (hf.2 _ hfm).2 rfl
  · exact absurd hdot (by decide)
  · exact (hl.2 _ hlm).2 rfl
  · exact digit_ne_underscore (decChars_isDigit _ hdec) rfl
  · exact absurd hsuf (by decide)

theorem underscore_mem_salted (f l : String) (i s : Nat) :
    '_' ∈ (mkSaltedEmail f l i s).data := by
  rw [mkSaltedEmail_data]
  simp

/-- Emails a run of `generate_passengers` can have recorded for iteration `j`:
the base email of `j`, or a salted retry email of `j`, built from pool names. -/
def PoolEmail (j : Nat) (e : String) : Prop :=
  ∃ f ∈ FIRST_NAMES, ∃ l ∈ LAST_NAMES,
    e = mkBaseEmail (pyLower f) (pyLower l) j ∨
      ∃ s, e = mkSaltedEmail (pyLower f) (pyLower l) j s

/-- A recorded email of another iteration never equals the current base email:
indices differ on base emails, and salted emails contain an underscore while
base emails do not. -/
theorem poolEmail_ne_base {j i : Nat} {e : String} (hp : PoolEmail j e) (hne : j ≠ i)
    {f l : String} (hf : f ∈ FIRST_NAMES) (hl : l ∈ LAST_NAMES) :
    e ≠ mkBaseEmail (pyLower f) (pyLower l) i := by
  obtain ⟨f', hf', l', hl', hcase⟩ := hp
  intro heq
  rcases hcase with hbase | ⟨s, hsalt⟩
  · rw [hbase] at heq
    exact hne (mkBaseEmail_idx_eq (lastNames_good l' hl') (lastNames_good l hl) heq)
  · rw [hsalt] at heq
    have h1 := underscore_mem_salted (pyLower f') (pyLower l') j s
    rw [heq] at h1
    exact underscore_not_mem_base (firstNames_good f hf) (lastNames_good l hl) h1

/-- A passenger row of `passengers.csv`. -/
structure PassengerS where
  id : Nat
  firstName : String
  lastName : String
  email : String
  phone : String
  deriving DecidableEq

/-- `f"+1-{randint(100,999)}-{randint(100,999)}-{randint(1000,9999)}"`. -/
def mkPhoneSimple (a b c : Nat) : String :=
  "+1-" ++ decRepr (100 + a % 900) ++ "-" ++ decRepr (100 + b % 900) ++ "-"
    ++ decRepr (1000 + c % 9000)

/-- The `while base_email in used_emails` retry loop of `generate_passengers`:
candidate 0 is the indexed base email, each retry draws a fresh salt
`random.randint(1, 999)`.  `none` means the fuel was exhausted while the
source would still be looping. -/
def findEmailSimple (f l : String) (i : Nat) (saltT : Nat → Nat) (used : List String) :
    Nat → Nat → Option String
  | 0, _ => none
  | fuel + 1, r =>
    let cand := if r = 0 then mkBaseEmail f l i
      else mkSaltedEmail f l i (1 + saltT r % 999)
    if cand ∈ used then findEmailSimple f l i saltT used fuel (r + 1) else some cand

/-- Main loop of `generate_passengers` over the remaining 1-based indices,
carrying the `used_emails` set.  Two candidate tests per iteration suffice
(the termination theorem shows the first candidate is always fresh). -/
def genPassSimpleGo (t : Nat → Nat → Nat) : List Nat → List String → Option (List PassengerS)
  | [], _ => some []
  | i :: rest, used =>
    let firstName := FIRST_NAMES.getD (t i 0 % FIRST_NAMES.length) ""
    let lastName := LAST_NAMES.getD (t i 1 % LAST_NAMES.length) ""
    match findEmailSimple (pyLower firstName) (pyLower lastName) i
        (fun r => t i (1 + r)) used 2 0 with
    | none => none
    | some email =>
      match genPassSimpleGo t rest (email :: used) with
      | none => none
      | some ps =>
          some (⟨i, firstName, lastName, email,
            mkPhoneSimple (t i 100) (t i 101) (t i 102)⟩ :: ps)

/-- `generate_passengers` of `src/data-generator.py`. -/
def generate_passengers (count : Nat) (t : Nat → Nat → Nat) : Option (List PassengerS) :=
  genPassSimpleGo t ((List.range count).map (· + 1)) []

/-- A passenger dict of `generate_synthetic_passengers`. -/
structure PassengerE where
  id : Nat
  firstName : String
  lastName : String
  email : String
  phone : String
  deriving DecidableEq

/-- Candidate `c` of the enhanced uniqueness loop: `f"{base}@{domain}"` first,
then `f"{base}{counter}@{domain}"` with `counter = 1, 2, ...` and a freshly
drawn free-email domain each time. -/
def mkEnhEmail (base : String) (c : Nat) (domain : String) : String :=
  if c = 0 then base ++ "@" ++ domain else base ++ decRepr c ++ "@" ++ domain

/-- The `while email in used_emails` loop of `generate_synthetic_passengers`
with its increasing `counter`. -/
def findEmailEnh (base : String) (domT : Nat → String) (used : List String) :
    Nat → Nat → Option String
  | 0, _ => none
  | fuel + 1, c =>
    let cand := mkEnhEmail base c (domT c)
    if cand ∈ used then findEmailEnh base domT used fuel (c + 1) else some cand

/-- `f"+1-{randint(200,999)}-{randint(200,999)}-{randint(1000,9999)}"`, the
fallback for an oversized Faker phone number. -/
def mkPhoneEnh (a b c : Nat) : String :=
  "+1-" ++ decRepr (200 + a % 800) ++ "-" ++ decRepr (200 + b % 800) ++ "-"
    ++ decRepr (1000 + c % 9000)

/-- Main loop of `generate_synthetic_passengers` over the remaining 1-based
indices.  `tS i 0`/`tS i 1` are the Faker first/last name draws, `tS i (2+c)`
the free-email-domain draw of candidate `c`, `tS i 100` the Faker phone
number.  `fuel` bounds the candidate tests per iteration; the generator
passes `count + 1`, which the termination theorem shows is never exhausted
(at iteration `i` the used set holds `i - 1 ≤ count` emails and candidates
are pairwise distinct). -/
def genPassEnhGo (tS : Nat → Nat → String) (tI : Nat → Nat → Nat) (fuel : Nat) :
    List Nat → List String → Option (List PassengerE)
  | [], _ => some []
  | i :: rest, used =>
    let firstName := tS i 0
    let lastName := tS i 1
    let base := pyLower firstName ++ "." ++ pyLower lastName
    match findEmailEnh base (fun c => tS i (2 + c)) used fuel 0 with
    | none => none
    | some email =>
      let rawPhone := tS i 100
      let phone := if rawPhone.length > 40
        then mkPhoneEnh (tI i 0) (tI i 1) (tI i 2) else rawPhone
      match genPassEnhGo tS tI fuel rest (email :: used) with
      | none => none
      | some ps => some (⟨i, firstName, lastName, email, phone⟩ :: ps)

/-- `AirlineDataLoader.generate_synthetic_passengers`. -/
def generate_synthetic_passengers (count : Nat) (tS : Nat → Nat → String)
    (tI : Nat → Nat → Nat) : Option (List PassengerE) :=
  genPassEnhGo tS tI (count + 1) ((List.range count).map (· + 1)) []

/-! ### The uniqueness loop only ever returns fresh emails -/

theorem findEmailSimple_fresh {f l : String} {i : Nat} {saltT : Nat → Nat}
    {used : List String} :
    ∀ fuel r e, findEmailSimple f l i saltT used fuel r = some e → e ∉ used := by
  intro fuel
  induction fuel with
  | zero => intro r e h; simp [findEmailSimple] at h
  | succ n ih =>
      intro r e h
      simp only [findEmailSimple] at h
      split at h
      · split at h
        · exact ih _ _ h
        · next hni =>
            obtain rfl := Option.some.inj h
            exact hni
      · split at h
        · exact ih _ _ h
        · next hni =>
            obtain rfl := Option.some.inj h
            exact hni

theorem findEmailEnh_fresh {base : String} {domT : Nat → String} {used : List String} :
    ∀ fuel c e, findEmailEnh base domT used fuel c = some e → e ∉ used := by
  intro fuel
  induction fuel with
  | zero => intro c e h; simp [findEmailEnh] at h
  | succ n ih =>
      intro c e h
      simp only [findEmailEnh] at h
      split at h
      · exact ih _ _ h
      · next hni =>
          obtain rfl := Option.some.inj h
          exact hni

/-! ### Structure of successful passenger runs -/

theorem genPassSimpleGo_spec (t : Nat → Nat → Nat) :
    ∀ (l : List Nat) (used : List String) (ps : List PassengerS),
      genPassSimpleGo t l used = some ps →
      ps.map (·.id) = l ∧ (ps.map (·.email)).Nodup ∧
        ∀ e ∈ used, ∀ p ∈ ps, p.email ≠ e := by
  intro l
  induction l with
  | nil =>
      intro used ps h
      simp only [genPassSimpleGo] at h
      obtain rfl := (Option.some.inj h)
      simp
  | cons i rest ih =>
      intro used ps h
      cases hfind : findEmailSimple
          (pyLower (FIRST_NAMES.getD (t i 0 % FIRST_NAMES.length) ""))
          (pyLower (LAST_NAMES.getD (t i 1 % LAST_NAMES.length) "")) i
          (fun r => t i (1 + r)) used 2 0 with
      | none =>
          simp only [genPassSimpleGo, hfind] at h
          exact Option.noConfusion h
      | some email =>
          cases hrec : genPassSimpleGo t rest (email :: used) with
          | none =>
              simp only [genPassSimpleGo, hfind, hrec] at h
              exact Option.noConfusion h
          | some ps' =>
              simp only [genPassSimpleGo, hfind, hrec, Option.some.injEq] at h
              subst h
              obtain ⟨hids, hnd, hdisj⟩ := ih (email :: used) ps' hrec
              have hfresh : email ∉ used := findEmailSimple_fresh _ _ _ hfind
              refine ⟨by simpa using hids, ?_, ?_⟩
              · rw [List.map_cons, List.nodup_cons]
                refine ⟨?_, hnd⟩
                intro hmem
                obtain ⟨p, hp, hpe⟩ := List.mem_map.mp hmem
                exact hdisj email (List.mem_cons_self _ _) p hp hpe
              · intro e he p hp
                rcases List.mem_cons.mp hp with rfl | hp'
                · exact fun hh => hfresh (by rw [show email = e from hh]; exact he)
                · exact hdisj e (List.mem_cons_of_mem _ he) p hp'

theorem genPassEnhGo_spec (tS : Nat → Nat → String) (tI : Nat → Nat → Nat) (fuel : Nat) :
    ∀ (l : List Nat) (used : List String) (ps : List PassengerE),
      genPassEnhGo tS tI fuel l used = some ps →
      ps.map (·.id) = l ∧ (ps.map (·.email)).Nodup ∧
        ∀ e ∈ used, ∀ p ∈ ps, p.email ≠ e := by
  intro l
  induction l with
  | nil =>
      intro used ps h
      simp only [genPassEnhGo] at h
      obtain rfl := (Option.some.inj h)
      simp
  | cons i rest ih =>
      intro used ps h
      cases hfind : findEmailEnh
          (pyLower (tS i 0) ++ "." ++ pyLower (tS i 1))
          (fun c => tS i (2 + c)) used fuel 0 with
      | none =>
          simp only [genPassEnhGo, hfind] at h
          exact Option.noConfusion h
      | some email =>
          cases hrec : genPassEnhGo tS tI fuel rest (email :: used) with
          | none =>
              simp only [genPassEnhGo, hfind, hrec] at h
              exact Option.noConfusion h
          | some ps' =>
              simp only [genPassEnhGo, hfind, hrec, Option.some.injEq] at h
              subst h
              obtain ⟨hids, hnd, hdisj⟩ := ih (email :: used) ps' hrec
              have hfresh : email ∉ used := findEmailEnh_fresh _ _ _ hfind
              refine ⟨by simpa using hids, ?_, ?_⟩
              · rw [List.map_cons, List.nodup_cons]
                refine ⟨?_, hnd⟩
                intro hmem
                obtain ⟨p, hp, hpe⟩ := List.mem_map.mp hmem
                exact hdisj email (List.mem_cons_self _ _) p hp hpe
              · intro e he p hp
                rcases List.mem_cons.mp hp with rfl | hp'
                · exact fun hh => hfresh (by rw [show email = e from hh]; exact he)
                · exact hdisj e (List.mem_cons_of_mem _ he) p hp'

/-! ### Termination of the uniqueness loops -/

theorem string_append_data (s u : String) : (s ++ u).data = s.data ++ u.data := rfl

theorem findEmailSimple_of_fresh {f l : String} {i : Nat} (saltT : Nat → Nat)
    {used : List String} (h : mkBaseEmail f l i ∉ used) :
    findEmailSimple f l i saltT used 2 0 = some (mkBaseEmail f l i) := by
  simp [findEmailSimple, h]

theorem mkEnhEmail_data_zero (base d : String) :
    (mkEnhEmail base 0 d).data = base.data ++ '@' :: d.data := by
  unfold mkEnhEmail
  rw [if_pos rfl, string_append_data, string_append_data]
  simp

theorem mkEnhEmail_data_pos (base d : String) {c : Nat} (h : c ≠ 0) :
    (mkEnhEmail base c d).data = base.data ++ (decChars c ++ '@' :: d.data) := by
  unfold mkEnhEmail
  rw [if_neg h, string_append_data, string_append_data, string_append_data]
  show (base.data ++ decChars c) ++ ('@' :: []) ++ d.data = _
  simp

theorem head_at_ne_digit (d : String) :
    ∀ c, (('@' :: d.data).head? = some c) → c.isDigit = false := by
  intro c hc
  obtain rfl := Option.some.inj hc
  decide

/-- Distinct counters give distinct candidate emails, whatever domains are
drawn: the digit run before the first `@` is exactly the counter. -/
theorem mkEnhEmail_ne {base d₁ d₂ : String} {c₁ c₂ : Nat} (hne : c₁ ≠ c₂) :
    mkEnhEmail base c₁ d₁ ≠ mkEnhEmail base c₂ d₂ := by
  intro h
  have hd := congrArg String.data h
  by_cases h₁ : c₁ = 0 <;> by_cases h₂ : c₂ = 0
  · exact hne (h₁.trans h₂.symm)
  · subst h₁
    rw [mkEnhEmail_data_zero, mkEnhEmail_data_pos base d₂ h₂] at hd
    have hcan := List.append_cancel_left hd
    cases hdc : decChars c₂ with
    | nil => exact decChars_ne_nil _ hdc
    | cons ch tl =>
        rw [hdc, List.cons_append] at hcan
        have hch : '@' = ch := (List.cons.inj hcan).1
        have hdig := decChars_isDigit (n := c₂) ch (by rw [hdc]; simp)
        rw [← hch] at hdig
        exact absurd hdig (by decide)
  · subst h₂
    rw [mkEnhEmail_data_zero, mkEnhEmail_data_pos base d₁ h₁] at hd
    have hcan := List.append_cancel_left hd.symm
    cases hdc : decChars c₁ with
    | nil => exact decChars_ne_nil _ hdc
    | cons ch tl =>
        rw [hdc, List.cons_append] at hcan
        have hch : '@' = ch := (List.cons.inj hcan).1
        have hdig := decChars_isDigit (n := c₁) ch (by rw [hdc]; simp)
        rw [← hch] at hdig
        exact absurd hdig (by decide)
  · rw [mkEnhEmail_data_pos base d₁ h₁, mkEnhEmail_data_pos base d₂ h₂] at hd
    have hcan := List.append_cancel_left hd
    have hsplit := append_digit_split (decChars c₁) (decChars c₂)
      ('@' :: d₁.data) ('@' :: d₂.data)
      (decChars_isDigit) (decChars_isDigit)
      (head_at_ne_digit d₁) (head_at_ne_digit d₂) hcan
    exact hne (decChars_inj hsplit.1)

theorem findEmailEnh_isSome_of_exists {base : String} {domT : Nat → String}
    {used : List String} :
    ∀ fuel c, (∃ k, k < fuel ∧ mkEnhEmail base (c + k) (domT (c + k)) ∉ used) →
      (findEmailEnh base domT used fuel c).isSome = true := by
  intro fuel
  induction fuel with
  | zero =>
      intro c h
      obtain ⟨k, hk, _⟩ := h
      omega
  | succ n ih =>
      intro c h
      simp only [findEmailEnh]
      split
      · next hin =>
          apply ih
          obtain ⟨k, hk, hfresh⟩ := h
          cases k with
          | zero => exact absurd hin (by simpa using hfresh)
          | succ m =>
              refine ⟨m, by omega, ?_⟩
              have harith : c + 1 + m = c + (m + 1) := by omega
              rw [harith]
              exact hfresh
      · simp

theorem findEmailEnh_isSome (base : String) (domT : Nat → String) (used : List String)
    (fuel c : Nat) (h : used.length < fuel) :
    (findEmailEnh base domT used fuel c).isSome = true := by
  apply findEmailEnh_isSome_of_exists
  by_contra hall
  push_neg at hall
  have hsub : ((List.range fuel).map (fun k => mkEnhEmail base (c + k) (domT (c + k)))) ⊆ used := by
    intro x hx
    obtain ⟨k, hk, rfl⟩ := List.mem_map.mp hx
    exact hall k (List.mem_range.mp hk)
  have hinj : Function.Injective (fun k => mkEnhEmail base (c + k) (domT (c + k))) := by
    intro a b hab
    by_contra hneq
    exact mkEnhEmail_ne (show c + a ≠ c + b from by omega) hab
  have hnd := (List.nodup_range fuel).map hinj
  have hlen := (hnd.subperm hsub).length_le
  simp only [List.length_map, List.length_range] at hlen
  omega

theorem genPassEnhGo_isSome (tS : Nat → Nat → String) (tI : Nat → Nat → Nat) (fuel : Nat) :
    ∀ (l : List Nat) (used : List String), used.length + l.length < fuel →
      (genPassEnhGo tS tI fuel l used).isSome = true := by
  intro l
  induction l with
  | nil => intro used _; simp [genPassEnhGo]
  | cons i rest ih =>
      intro used h
      have hfind := findEmailEnh_isSome (pyLower (tS i 0) ++ "." ++ pyLower (tS i 1))
        (fun c => tS i (2 + c)) used fuel 0 (by simp at h; omega)
      obtain ⟨email, hemail⟩ := Option.isSome_iff_exists.mp hfind
      have hrec := ih (email :: used) (by simp at h ⊢; omega)
      obtain ⟨ps, hps⟩ := Option.isSome_iff_exists.mp hrec
      simp [genPassEnhGo, hemail, hps]

theorem genPassSimpleGo_isSome (t : Nat → Nat → Nat) :
    ∀ (l : List Nat) (used : List String), l.Nodup →
      (∀ e ∈ used, ∃ j, j ∉ l ∧ PoolEmail j e) →
      (genPassSimpleGo t l used).isSome = true := by
  intro l
  induction l with
  | nil => intro used _ _; simp [genPassSimpleGo]
  | cons i rest ih =>
      intro used hnd hinv
      obtain ⟨hni, hndrest⟩ := List.nodup_cons.mp hnd
      have hfm : FIRST_NAMES.getD (t i 0 % FIRST_NAMES.length) "" ∈ FIRST_NAMES :=
        getD_mod_mem _ _ _ (by decide)
      have hlm : LAST_NAMES.getD (t i 1 % LAST_NAMES.length) "" ∈ LAST_NAMES :=
        getD_mod_mem _ _ _ (by decide)
      have hbase : mkBaseEmail (pyLower (FIRST_NAMES.getD (t i 0 % FIRST_NAMES.length) ""))
          (pyLower (LAST_NAMES.getD (t i 1 % LAST_NAMES.length) "")) i ∉ used := by
        intro hmem
        obtain ⟨j, hjl, hpe⟩ := hinv _ hmem
        have hji : j ≠ i := fun hh => hjl (hh ▸ List.mem_cons_self i rest)
        exact poolEmail_ne_base hpe hji hfm hlm rfl
      have hfind := findEmailSimple_of_fresh (fun r => t i (1 + r)) hbase
      have hrec := ih (mkBaseEmail (pyLower (FIRST_NAMES.getD (t i 0 % FIRST_NAMES.length) ""))
          (pyLower (LAST_NAMES.getD (t i 1 % LAST_NAMES.length) "")) i :: used) hndrest ?_
      · obtain ⟨ps, hps⟩ := Option.isSome_iff_exists.mp hrec
        simp only [genPassSimpleGo, hfind, hps, Option.isSome_some]
      · intro e he
        rcases List.mem_cons.mp he with rfl | he'
        · exact ⟨i, hni, ⟨_, hfm, _, hlm, Or.inl rfl⟩⟩
        · obtain ⟨j, hjl, hpe⟩ := hinv e he'
          exact ⟨j, fun hh => hjl (List.mem_cons_of_mem _ hh), hpe⟩

/-! ## Booking generators -/

/-- `random.sample(pop, k)`: `k` selections without replacement, modelled by
repeatedly removing the element at a tape-chosen index.  The sources always
call it with `k ≤ pop.length`. -/
def sampleWOR {α : Type} : Nat → List α → (Nat → Nat) → List α
  | 0, _, _ => []
  | k + 1, pop, t =>
    match pop with
    | [] => []
    | p :: ps =>
      let idx := t 0 % (p :: ps).length
      (p :: ps).get ⟨idx, Nat.mod_lt _ (by simp)⟩ ::
        sampleWOR k ((p :: ps).eraseIdx idx) (fun n => t (n + 1))

theorem sampleWOR_subset {α : Type} :
    ∀ (k : Nat) (pop : List α) (t : Nat → Nat), ∀ x ∈ sampleWOR k pop t, x ∈ pop := by
  intro k
  induction k with
  | zero => intro pop t x hx; simp [sampleWOR] at hx
  | succ n ih =>
      intro pop t x hx
      cases pop with
      | nil => simp [sampleWOR] at hx
      | cons p ps =>
          simp only [sampleWOR] at hx
          rcases List.mem_cons.mp hx with rfl | hx'
          · exact List.get_mem _ _ _
          · exact (List.eraseIdx_sublist (p :: ps) _).subset (ih _ _ x hx')

theorem sampleWOR_length {α : Type} :
    ∀ (k : Nat) (pop : List α) (t : Nat → Nat),
      (sampleWOR k pop t).length = min k pop.length := by
  intro k
  induction k with
  | zero => intro pop t; simp [sampleWOR]
  | succ n ih =>
      intro pop t
      cases pop with
      | nil => simp [sampleWOR]
      | cons p ps =>
          simp only [sampleWOR, List.length_cons]
          rw [ih]
          have hlt : t 0 % (ps.length + 1) < (p :: ps).length := Nat.mod_lt _ (Nat.succ_pos _)
          have hlen : ((p :: ps).eraseIdx (t 0 % (ps.length + 1))).length = ps.length := by
            rw [List.length_eraseIdx_of_lt hlt]
            simp
          rw [hlen]
          omega

theorem nodup_get_not_mem_eraseIdx {α : Type} :
    ∀ (l : List α) (i : Nat) (h : i < l.length), l.Nodup →
      l.get ⟨i, h⟩ ∉ l.eraseIdx i := by
  intro l
  induction l with
  | nil => intro i h; simp at h
  | cons a as ih =>
      intro i h hnd
      obtain ⟨hna, hnas⟩ := List.nodup_cons.mp hnd
      cases i with
      | zero => simpa using hna
      | succ j =>
          simp only [List.get_cons_succ, List.eraseIdx_cons_succ]
          intro hmem
          rcases List.mem_cons.mp hmem with heq | hmem'
          · exact hna (heq ▸ List.get_mem _ _ _)
          · exact ih j (by simpa using h) hnas hmem'

theorem sampleWOR_nodup {α : Type} :
    ∀ (k : Nat) (pop : List α) (t : Nat → Nat), pop.Nodup →
      (sampleWOR k pop t).Nodup := by
  intro k
  induction k with
  | zero => intro pop t _; simp [sampleWOR]
  | succ n ih =>
      intro pop t hnd
      cases pop with
      | nil => simp [sampleWOR]
      | cons p ps =>
          simp only [sampleWOR]
          rw [List.nodup_cons]
          refine ⟨?_, ih _ _ (hnd.sublist (List.eraseIdx_sublist (p :: ps) _))⟩
          intro hmem
          exact nodup_get_not_mem_eraseIdx (p :: ps) _ _ hnd
            (sampleWOR_subset _ _ _ _ hmem)

/-- `f"{random.randint(1, 35)}{random.choice('ABCDEF')}"`. -/
def mkSeat (a b : Nat) : String :=
  decRepr (1 + a % 35) ++ ["A", "B", "C", "D", "E", "F"].getD (b % 6) ""

/-- A row of `bookings.csv` (timestamps in minutes). -/
structure BookingS where
  id : Nat
  passengerId : Nat
  flightId : Nat
  date : Int
  seat : String
  deriving DecidableEq

/-- Per-passenger loop body of `generate_bookings`: draw `num_bookings` from
`random.choices([1,2,3], ...)` (all weights positive, so the support is
`{1,2,3}`), sample that many distinct flight ids, and for each build one
booking dated `departure - timedelta(days=randint(1,60), hours=randint(0,23))`.
The `next(f for f in flights if f[0] == flight_id)` of the source always
finds the flight because the ids were sampled from `flights`; the `none`
branch is unreachable. -/
def chosenFlightIdsS (flights : List FlightS) (t : Nat → Nat) : List Nat :=
  sampleWOR (min ([1, 2, 3].getD (t 0 % 3) 0) (flights.map (·.id)).length)
    (flights.map (·.id)) (fun j => t (1 + j))

/-- Booking row for the `jf.1`-th selected flight id `jf.2` of a passenger. -/
def mkRawBookingS (flights : List FlightS) (p : Nat) (t : Nat → Nat) (jf : Nat × Nat) :
    Option (Nat × Nat × Int × String) :=
  match flights.find? (fun f => f.id = jf.2) with
  | none => none
  | some f =>
    let days := 1 + t (10 + 4 * jf.1) % 60
    let hours := t (11 + 4 * jf.1) % 24
    some (p, jf.2, f.dep - (days * 1440 + hours * 60 : Nat),
      mkSeat (t (12 + 4 * jf.1)) (t (13 + 4 * jf.1)))

def bookingsForPassengerS (flights : List FlightS) (p : Nat) (t : Nat → Nat) :
    List (Nat × Nat × Int × String) :=
  (chosenFlightIdsS flights t).enum.filterMap (mkRawBookingS flights p t)

/-- Global sequential `booking_id` assignment, starting at `n`. -/
def assignIdsS : Nat → List (Nat × Nat × Int × String) → List BookingS
  | _, [] => []
  | n, r :: rest => ⟨n, r.1, r.2.1, r.2.2.1, r.2.2.2⟩ :: assignIdsS (n + 1) rest

/-- `generate_bookings` of `src/data-generator.py`: passengers are the ids
`1 .. passengerCount`, booking ids are assigned sequentially starting at 1. -/
def generate_bookings (passengerCount : Nat) (flights : List FlightS)
    (t : Nat → Nat → Nat) : List BookingS :=
  assignIdsS 1 (((List.range passengerCount).map (· + 1)).flatMap
    (fun p => bookingsForPassengerS flights p (t p)))

/-- A booking dict of `generate_realistic_bookings`. -/
structure BookingE where
  id : Nat
  passengerId : Nat
  flightId : Nat
  date : ℚ
  seat : String
  deriving DecidableEq

/-- Traveler-archetype draw and its booking count: `random.choices` over
`['frequent', 'business', 'leisure', 'occasional']` (all weights positive)
followed by the per-archetype `randint`. -/
def numBookingsE (t0 t1 : Nat) : Nat :=
  match t0 % 4 with
  | 0 => 4 + t1 % 5
  | 1 => 2 + t1 % 3
  | 2 => 1 + t1 % 2
  | _ => 1

/-- Per-passenger loop body of `generate_realistic_bookings`: sample
`min(num_bookings, len(flights))` distinct flight dicts and date each booking
`departure - timedelta(days=randint(1,60))`. -/
def chosenFlightsE (flights : List FlightE) (t : Nat → Nat) : List FlightE :=
  sampleWOR (min (numBookingsE (t 0) (t 1)) flights.length) flights (fun j => t (2 + j))

/-- Booking row for the `jf.1`-th selected flight dict `jf.2` of a passenger. -/
def mkRawBookingE (pid : Nat) (t : Nat → Nat) (jf : Nat × FlightE) :
    Nat × Nat × ℚ × String :=
  let days := 1 + t (100 + 3 * jf.1) % 60
  (pid, jf.2.id, jf.2.dep - ((days * 1440 : Nat) : ℚ),
    mkSeat (t (101 + 3 * jf.1)) (t (102 + 3 * jf.1)))

def bookingsForPassengerE (flights : List FlightE) (pid : Nat) (t : Nat → Nat) :
    List (Nat × Nat × ℚ × String) :=
  (chosenFlightsE flights t).enum.map (mkRawBookingE pid t)

/-- Global sequential `booking_id` assignment, starting at `n`. -/
def assignIdsE : Nat → List (Nat × Nat × ℚ × String) → List BookingE
  | _, [] => []
  | n, r :: rest => ⟨n, r.1, r.2.1, r.2.2.1, r.2.2.2⟩ :: assignIdsE (n + 1) rest

/-- `AirlineDataLoader.generate_realistic_bookings`. -/
def generate_realistic_bookings (passengers : List PassengerE) (flights : List FlightE)
    (t : Nat → Nat → Nat) : List BookingE :=
  assignIdsE 1 (passengers.enum.flatMap
    (fun qp => bookingsForPassengerE flights qp.2.id (t qp.1)))

/-! ### Booking properties -/

theorem mem_assignIdsS : ∀ (n : Nat) (l : List (Nat × Nat × Int × String)) (b : BookingS),
    b ∈ assignIdsS n l → ∃ r ∈ l, b.passengerId = r.1 ∧ b.flightId = r.2.1 ∧
      b.date = r.2.2.1 ∧ b.seat = r.2.2.2 := by
  intro n l
  induction l generalizing n with
  | nil => intro b hb; simp [assignIdsS] at hb
  | cons r rest ih =>
      intro b hb
      simp only [assignIdsS] at hb
      rcases List.mem_cons.mp hb with rfl | hb'
      · exact ⟨r, List.mem_cons_self _ _, rfl, rfl, rfl, rfl⟩
      · obtain ⟨r', hr', hprops⟩ := ih (n + 1) b hb'
        exact ⟨r', List.mem_cons_of_mem _ hr', hprops⟩

theorem mem_assignIdsE : ∀ (n : Nat) (l : List (Nat × Nat × ℚ × String)) (b : BookingE),
    b ∈ assignIdsE n l → ∃ r ∈ l, b.passengerId = r.1 ∧ b.flightId = r.2.1 ∧
      b.date = r.2.2.1 ∧ b.seat = r.2.2.2 := by
  intro n l
  induction l generalizing n with
  | nil => intro b hb; simp [assignIdsE] at hb
  | cons r rest ih =>
      intro b hb
      simp only [assignIdsE] at hb
      rcases List.mem_cons.mp hb with rfl | hb'
      · exact ⟨r, List.mem_cons_self _ _, rfl, rfl, rfl, rfl⟩
      · obtain ⟨r', hr', hprops⟩ := ih (n + 1) b hb'
        exact ⟨r', List.mem_cons_of_mem _ hr', hprops⟩

theorem filter_assignIdsS (p : Nat) : ∀ (n : Nat) (l : List (Nat × Nat × Int × String)),
    ((assignIdsS n l).filter (fun b => b.passengerId = p)).map (fun b => b.flightId)
      = (l.filter (fun r => r.1 = p)).map (fun r => r.2.1) := by
  intro n l
  induction l generalizing n with
  | nil => simp [assignIdsS]
  | cons r rest ih =>
      by_cases hp : r.1 = p
      · simp only [assignIdsS, List.filter_cons]
        rw [if_pos (by simpa using hp), if_pos (by simpa using hp)]
        simp only [List.map_cons]
        rw [ih]
      · simp only [assignIdsS, List.filter_cons]
        rw [if_neg (by simpa using hp), if_neg (by simpa using hp)]
        exact ih (n + 1)

theorem filter_assignIdsE (p : Nat) : ∀ (n : Nat) (l : List (Nat × Nat × ℚ × String)),
    ((assignIdsE n l).filter (fun b => b.passengerId = p)).map (fun b => b.flightId)
      = (l.filter (fun r => r.1 = p)).map (fun r => r.2.1) := by
  intro n l
  induction l generalizing n with
  | nil => simp [assignIdsE]
  | cons r rest ih =>
      by_cases hp : r.1 = p
      · simp only [assignIdsE, List.filter_cons]
        rw [if_pos (by simpa using hp), if_pos (by simpa using hp)]
        simp only [List.map_cons]
        rw [ih]
      · simp only [assignIdsE, List.filter_cons]
        rw [if_neg (by simpa using hp), if_neg (by simpa using hp)]
        exact ih (n + 1)

/-- In a flat map of per-passenger groups whose rows carry their passenger id,
filtering by the id of an index that occurs once recovers exactly that
index's group. -/
theorem filter_flatMap_group {ι α : Type} (pj : α → Nat) (pidx : ι → Nat) (g : ι → List α)
    (hg : ∀ q, ∀ r ∈ g q, pj r = pidx q) :
    ∀ l : List ι, (l.map pidx).Nodup → ∀ q0 ∈ l,
      (l.flatMap g).filter (fun r => pj r = pidx q0) = g q0 := by
  intro l
  induction l with
  | nil => intro _ q0 hq0; simp at hq0
  | cons q rest ih =>
      intro hnd q0 hq0
      rw [List.map_cons, List.nodup_cons] at hnd
      obtain ⟨hnq, hndr⟩ := hnd
      simp only [List.flatMap_cons, List.filter_append]
      rcases List.mem_cons.mp hq0 with rfl | hq0'
      · have h1 : (g q0).filter (fun r => pj r = pidx q0) = g q0 :=
          List.filter_eq_self.mpr (fun r hr => by simp [hg q0 r hr])
        have h2 : (rest.flatMap g).filter (fun r => pj r = pidx q0) = [] := by
          apply List.filter_eq_nil_iff.mpr
          intro r hr
          obtain ⟨q', hq', hrq'⟩ := List.mem_flatMap.mp hr
          have := hg q' r hrq'
          simp only [decide_eq_true_eq]
          rw [this]
          exact fun hh => hnq (hh ▸ List.mem_map_of_mem pidx hq')
        rw [h1, h2, List.append_nil]
      · have hqp : pidx q ≠ pidx q0 :=
          fun hh => hnq (hh ▸ List.mem_map_of_mem pidx hq0')
        have h1 : (g q).filter (fun r => pj r = pidx q0) = [] := by
          apply List.filter_eq_nil_iff.mpr
          intro r hr
          have := hg q r hr
          simp only [decide_eq_true_eq]
          rw [this]
          exact hqp
        rw [h1, List.nil_append, ih hndr q0 hq0']

/-- A `filterMap` whose hits agree with a total map is a sublist of that map. -/
theorem filterMap_sublist_of_map {α β : Type} (f : α → Option β) (h : α → β)
    (hfh : ∀ a b, f a = some b → b = h a) :
    ∀ l : List α, List.Sublist (l.filterMap f) (l.map h) := by
  intro l
  induction l with
  | nil => simp
  | cons a as ih =>
      simp only [List.map_cons]
      cases hfa : f a with
      | none =>
          rw [List.filterMap_cons_none hfa]
          exact List.Sublist.cons _ ih
      | some b =>
          rw [List.filterMap_cons_some hfa]
          obtain rfl := hfh a b hfa
          exact List.Sublist.cons₂ _ ih

theorem length_filterMap_of_isSome {α β : Type} (f : α → Option β) :
    ∀ l : List α, (∀ x ∈ l, (f x).isSome = true) → (l.filterMap f).length = l.length := by
  intro l
  induction l with
  | nil => simp
  | cons a as ih =>
      intro hall
      obtain ⟨b, hb⟩ := Option.isSome_iff_exists.mp (hall a (List.mem_cons_self _ _))
      rw [List.filterMap_cons_some hb]
      simp only [List.length_cons]
      rw [ih (fun x hx => hall x (List.mem_cons_of_mem _ hx))]

theorem mem_of_mem_enum {α : Type} {l : List α} {jf : Nat × α} (h : jf ∈ l.enum) :
    jf.2 ∈ l := by
  have := List.mem_map_of_mem Prod.snd h
  rwa [List.enum_map_snd] at this

theorem mkRawBookingS_some {flights : List FlightS} {p : Nat} {t : Nat → Nat}
    {jf : Nat × Nat} {r : Nat × Nat × Int × String}
    (h : mkRawBookingS flights p t jf = some r) :
    r.1 = p ∧ r.2.1 = jf.2 ∧ ∃ f ∈ flights, f.id = jf.2 ∧ r.2.2.1 < f.dep := by
  simp only [mkRawBookingS] at h
  cases hfind : flights.find? (fun f => f.id = jf.2) with
  | none => rw [hfind] at h; exact absurd h (by simp)
  | some f =>
      rw [hfind] at h
      obtain rfl := (Option.some.inj h).symm
      have hpred := List.find?_some hfind
      refine ⟨rfl, rfl, f, List.mem_of_find?_eq_some hfind, of_decide_eq_true hpred, ?_⟩
      show f.dep - ((1 + t (10 + 4 * jf.1) % 60) * 1440 + t (11 + 4 * jf.1) % 24 * 60 : Nat)
        < f.dep
      have h1 : (1440 : Nat) ≤ (1 + t (10 + 4 * jf.1) % 60) * 1440
          + t (11 + 4 * jf.1) % 24 * 60 := by omega
      omega

theorem mkRawBookingS_isSome {flights : List FlightS} {jf : Nat × Nat} (p : Nat)
    (t : Nat → Nat) (h : jf.2 ∈ flights.map (·.id)) :
    (mkRawBookingS flights p t jf).isSome = true := by
  obtain ⟨f, hf, hfid⟩ := List.mem_map.mp h
  simp only [mkRawBookingS]
  cases hfind : flights.find? (fun g => g.id = jf.2) with
  | none =>
      have hs : (flights.find? (fun g => g.id = jf.2)).isSome = true :=
        List.find?_isSome.mpr ⟨f, hf, by simp [hfid]⟩
      rw [hfind] at hs
      exact absurd hs (by simp)
  | some g => simp

theorem bookingsForPassengerS_props (flights : List FlightS) (p : Nat) (t : Nat → Nat) :
    ∀ r ∈ bookingsForPassengerS flights p t,
      r.1 = p ∧ ∃ f ∈ flights, f.id = r.2.1 ∧ r.2.2.1 < f.dep := by
  intro r hr
  obtain ⟨jf, hjf, hsome⟩ := List.mem_filterMap.mp hr
  obtain ⟨h1, h2, f, hf, hfid, hdate⟩ := mkRawBookingS_some hsome
  exact ⟨h1, f, hf, by rw [h2]; exact hfid, hdate⟩

theorem bookingsForPassengerE_props (flights : List FlightE) (pid : Nat) (t : Nat → Nat) :
    ∀ r ∈ bookingsForPassengerE flights pid t,
      r.1 = pid ∧ ∃ f ∈ flights, f.id = r.2.1 ∧ r.2.2.1 < f.dep := by
  intro r hr
  obtain ⟨jf, hjf, hsome⟩ := List.mem_map.mp hr
  obtain rfl := hsome.symm
  have hmem : jf.2 ∈ flights := sampleWOR_subset _ _ _ _ (mem_of_mem_enum hjf)
  refine ⟨rfl, jf.2, hmem, rfl, ?_⟩
  show jf.2.dep - (((1 + t (100 + 3 * jf.1) % 60) * 1440 : Nat) : ℚ) < jf.2.dep
  have h1 : (1440 : Nat) ≤ (1 + t (100 + 3 * jf.1) % 60) * 1440 := by omega
  have h2 : (1440 : ℚ) ≤ (((1 + t (100 + 3 * jf.1) % 60) * 1440 : Nat) : ℚ) := by
    exact_mod_cast h1
  linarith

theorem bookingsForPassengerS_fids_nodup {flights : List FlightS}
    (hids : (flights.map (·.id)).Nodup) (p : Nat) (t : Nat → Nat) :
    ((bookingsForPassengerS flights p t).map (fun r => r.2.1)).Nodup := by
  simp only [bookingsForPassengerS, List.map_filterMap]
  have hsub := filterMap_sublist_of_map
    (fun jf => (mkRawBookingS flights p t jf).map (fun r => r.2.1)) Prod.snd
    (by
      intro jf b hb
      obtain ⟨r, hr, hrb⟩ := Option.map_eq_some'.mp hb
      obtain ⟨_, h2, _⟩ := mkRawBookingS_some hr
      rw [← hrb, h2])
    ((chosenFlightIdsS flights t).enum)
  rw [List.enum_map_snd] at hsub
  exact (sampleWOR_nodup _ _ _ hids).sublist hsub

theorem bookingsForPassengerS_length (flights : List FlightS) (p : Nat) (t : Nat → Nat) :
    (bookingsForPassengerS flights p t).length
      = min ([1, 2, 3].getD (t 0 % 3) 0) flights.length := by
  simp only [bookingsForPassengerS]
  rw [length_filterMap_of_isSome]
  · rw [List.enum_length]
    simp only [chosenFlightIdsS, sampleWOR_length, List.length_map]
    omega
  · intro jf hjf
    exact mkRawBookingS_isSome p t (sampleWOR_subset _ _ _ _ (mem_of_mem_enum hjf))

theorem enum_map_snd_comp {α β : Type} (l : List α) (g : α → β) :
    l.enum.map (fun jf => g jf.2) = l.map g := by
  calc l.enum.map (fun jf => g jf.2) = (l.enum.map Prod.snd).map g := by
        rw [List.map_map]
        rfl
    _ = l.map g := by rw [List.enum_map_snd]

theorem bookingsForPassengerE_fids_eq (flights : List FlightE) (pid : Nat) (t : Nat → Nat) :
    (bookingsForPassengerE flights pid t).map (fun r => r.2.1)
      = (chosenFlightsE flights t).map (fun f => f.id) := by
  simp only [bookingsForPassengerE, List.map_map]
  exact enum_map_snd_comp (chosenFlightsE flights t) (fun f => f.id)

theorem bookingsForPassengerE_fids_nodup {flights : List FlightE}
    (hids : (flights.map (·.id)).Nodup) (pid : Nat) (t : Nat → Nat) :
    ((bookingsForPassengerE flights pid t).map (fun r => r.2.1)).Nodup := by
  rw [bookingsForPassengerE_fids_eq]
  refine List.Nodup.map_on ?_ (sampleWOR_nodup _ _ _ (List.Nodup.of_map _ hids))
  intro x hx y hy hxy
  exact List.inj_on_of_nodup_map hids (sampleWOR_subset _ _ _ _ hx)
    (sampleWOR_subset _ _ _ _ hy) hxy

theorem bookingsForPassengerE_length (flights : List FlightE) (pid : Nat) (t : Nat → Nat) :
    (bookingsForPassengerE flights pid t).length
      = min (numBookingsE (t 0) (t 1)) flights.length := by
  simp only [bookingsForPassengerE, List.length_map, List.enum_length, chosenFlightsE,
    sampleWOR_length]
  omega

/-! ## Fallback catalog (`AirlineDataLoader._load_fallback_data`) -/

/-- `fallback_airports` dict: code, name, city, country. -/
def fallbackAirports : List (String × String × String × String) :=
  [("JFK", "John F Kennedy Intl", "New York", "United States"),
   ("LAX", "Los Angeles Intl", "Los Angeles", "United States"),
   ("ORD", "Chicago OHare Intl", "Chicago", "United States"),
   ("ATL", "Hartsfield Jackson Atlanta Intl", "Atlanta", "United States"),
   ("DFW", "Dallas Fort Worth Intl", "Dallas", "United States"),
   ("DEN", "Denver Intl", "Denver", "United States"),
   ("SFO", "San Francisco Intl", "San Francisco", "United States"),
   ("SEA", "Seattle Tacoma Intl", "Seattle", "United States"),
   ("LAS", "McCarran Intl", "Las Vegas", "United States"),
   ("PHX", "Phoenix Sky Harbor Intl", "Phoenix", "United States"),
   ("IAH", "George Bush Intercontinental", "Houston", "United States"),
   ("MCO", "Orlando Intl", "Orlando", "United States"),
   ("MIA", "Miami Intl", "Miami", "United States"),
   ("BOS", "Logan Intl", "Boston", "United States"),
   ("EWR", "Newark Liberty Intl", "Newark", "United States")]

def fallbackAirportCodes : List String := fallbackAirports.map (·.1)

/-- The allow-listed carriers of the fallback path. -/
def fallbackAirlines : List String := ["AA", "DL", "UA", "WN", "AS", "B6"]

/-- The double loop of `_load_fallback_data`: every ordered pair of distinct
codes becomes one route with a randomly chosen carrier.  Python iterates
`list(self.us_airports)`, a set whose order is arbitrary; the modelled order
is the dict insertion order, and the carrier draw is an oracle indexed by the
pair — both harmless because every property stated about the route set is
order-insensitive and carrier-insensitive. -/
def loadFallbackRoutes (tA : String → String → Nat) : List Route :=
  fallbackAirportCodes.flatMap (fun origin =>
    (fallbackAirportCodes.filter (fun d => d ≠ origin)).map (fun dest =>
      ⟨fallbackAirlines.getD (tA origin dest % fallbackAirlines.length) "", origin, dest⟩))

theorem loadFallbackRoutes_sound (tA : String → String → Nat) :
    ∀ r ∈ loadFallbackRoutes tA,
      r.origin ∈ fallbackAirportCodes ∧ r.destination ∈ fallbackAirportCodes ∧
        r.origin ≠ r.destination := by
  intro r hr
  simp only [loadFallbackRoutes] at hr
  obtain ⟨origin, horigin, hmap⟩ := List.mem_flatMap.mp hr
  obtain ⟨dest, hdest, rfl⟩ := List.mem_map.mp hmap
  have hd := List.mem_filter.mp hdest
  exact ⟨horigin, hd.1, fun hh => (of_decide_eq_true hd.2) hh.symm⟩

theorem loadFallbackRoutes_complete (tA : String → String → Nat) :
    ∀ a ∈ fallbackAirportCodes, ∀ b ∈ fallbackAirportCodes, a ≠ b →
      ∃ r ∈ loadFallbackRoutes tA, r.origin = a ∧ r.destination = b := by
  intro a ha b hb hab
  refine ⟨⟨fallbackAirlines.getD (tA a b % fallbackAirlines.length) "", a, b⟩, ?_, rfl, rfl⟩
  simp only [loadFallbackRoutes]
  apply List.mem_flatMap.mpr
  refine ⟨a, ha, ?_⟩
  apply List.mem_map.mpr
  refine ⟨b, ?_, rfl⟩
  rw [List.mem_filter]
  exact ⟨hb, by simpa using fun hh => hab hh.symm⟩

/-! ## CLI surface of `enhanced-data-loader.py` (`main` and the module guard) -/

/-- How `main()` hands control back to the interpreter: a plain `return`
(value discarded by the bare `main()` call in the `__main__` guard) or an
explicit `sys.exit(code)`. -/
inductive MainExit where
  | returned : Option Int → MainExit
  | sysExit : Int → MainExit
  deriving DecidableEq

/-- Observable outcome of one `main()` call. -/
structure MainRun where
  errorReported : Bool
  generationRan : Bool
  exit : MainExit
  deriving DecidableEq

/-- `main()` of `enhanced-data-loader.py`: an out-of-range `--scale` prints the
error and executes `return 1` before any generation work; otherwise the
program runs generation inside `try`, whose `except` branch calls
`sys.exit(1)`.  `genFails` abstracts whether that try-block raises. -/
def mainEnhanced (scale : Int) (genFails : Bool) : MainRun :=
  if scale < 1 ∨ scale > 1000 then ⟨true, false, .returned (some 1)⟩
  else if genFails then ⟨true, true, .sysExit 1⟩
  else ⟨false, true, .returned none⟩

/-- Process exit status under `if __name__ == "__main__": main()`: the return
value of `main` is discarded, so the process exits 0 unless `sys.exit` ran. -/
def processExitStatus : MainExit → Int
  | .returned _ => 0
  | .sysExit c => c

/-! ## Symmetry of the duration estimators on their tables -/

theorem distanceFactors_symm : ∀ e ∈ distanceFactors,
    e.1.1 ≠ e.1.2 ∧ lookupPair distanceFactors e.1.1 e.1.2 = some e.2 ∧
      lookupPair distanceFactors e.1.2 e.1.1 = some e.2 := by decide

theorem durationMap_symm : ∀ e ∈ durationMap,
    lookupPair durationMap e.1.1 e.1.2 = some e.2 ∧
      lookupPair durationMap e.1.2 e.1.1 = some e.2 := by decide

theorem calculate_flight_duration_eq {a b : String} {v : Nat} (hne : a ≠ b)
    (h : lookupPair distanceFactors a b = some v) (t : Nat) :
    calculate_flight_duration a b t = v := by
  unfold calculate_flight_duration
  rw [if_neg hne, h]

theorem estimateFlightDuration_eq {a b : String} {v : ℚ}
    (h : lookupPair durationMap a b = some v) (u : ℚ) :
    estimateFlightDuration a b u = v := by
  unfold estimateFlightDuration
  rw [h]
  rfl

/-! ## Claims -/

/-- Claim C1 (code bug): the spec and the source's own `# Ensure exact count`
comment promise exactly `count` flights with ids `1..count`, but
`generate_realistic_flights` runs a fixed `count` iterations, discards
rejected candidates via `continue`, assigns `flight_id := i + 1` from the loop
index, and `flights[:count]` only truncates.  Evaluating the code: with one
route (MCO, MIA) of combined hub weight `1.25` and a retention draw of `1/2 >
1.25/3`, asking for 1 flight yields 0 flights, and asking for 2 flights with
the first candidate rejected yields the single id `2` instead of `1..2`. -/
theorem flight_count_shortfall_eval :
    generate_realistic_flights 1 0 [⟨"WN", "MCO", "MIA"⟩] (fun _ _ => 0)
        (fun _ _ => mkRat 1 2) = [] ∧
      (generate_realistic_flights 2 0 [⟨"WN", "MCO", "MIA"⟩] (fun _ _ => 0)
        (fun i _ => if i = 0 then mkRat 1 2 else 0)).map (·.id) = [2] := by
  constructor <;> with_unfolding_all decide

/-- Claim C2: in both generators every produced flight arrives strictly after
it departs.  In the simple variant the duration is at least one hour and the
extra minutes are nonnegative; in the enhanced variant every table duration is
at least 1 hour, the uniform fallback is at least 1.5 hours, and the schedule
padding is at least -15 minutes, so the gap is at least 45 minutes and no
clamping is ever needed. -/
theorem arrival_after_departure :
    (∀ (count : Nat) (baseDate : Int) (t : Nat → Nat → Nat),
      ∀ f ∈ generate_flights count baseDate t, f.dep < f.arr) ∧
    (∀ (count : Nat) (baseDate : Int) (routes : List Route) (tI : Nat → Nat → Nat)
        (tR : Nat → Nat → ℚ), (∀ i, mkRat 3 2 ≤ tR i 1 ∧ tR i 1 ≤ mkRat 11 2) →
      ∀ f ∈ generate_realistic_flights count baseDate routes tI tR, f.dep < f.arr) := by
  refine ⟨generate_flights_dep_lt_arr, ?_⟩
  intro count baseDate routes tI tR hu
  apply generate_realistic_flights_dep_lt_arr
  intro i
  have h32 : (3 / 2 : ℚ) = mkRat 3 2 := by norm_num [mkRat]
  rw [h32]
  exact (hu i).1

theorem arrival_after_departure_witness :
    ((generate_flights 1 0 (fun _ _ => 0)).getD 0 ⟨0, "", "", "", 0, 0⟩).dep
        < ((generate_flights 1 0 (fun _ _ => 0)).getD 0 ⟨0, "", "", "", 0, 0⟩).arr ∧
      ((generate_realistic_flights 1 0 [⟨"AA", "ATL", "ORD"⟩] (fun _ _ => 0)
          (fun _ k => if k = 0 then 0 else 2)).getD 0 ⟨0, "", "", "", "", 0, 0⟩).dep
        < ((generate_realistic_flights 1 0 [⟨"AA", "ATL", "ORD"⟩] (fun _ _ => 0)
          (fun _ k => if k = 0 then 0 else 2)).getD 0 ⟨0, "", "", "", "", 0, 0⟩).arr :=
  ⟨arrival_after_departure.1 1 0 (fun _ _ => 0) _ (by with_unfolding_all decide),
   arrival_after_departure.2 1 0 [⟨"AA", "ATL", "ORD"⟩] (fun _ _ => 0)
     (fun _ k => if k = 0 then 0 else 2)
     (fun _ => ⟨by norm_num [mkRat], by norm_num [mkRat]⟩) _
     (by with_unfolding_all decide)⟩

/-- Claim C3: every booking produced by either booking generator is dated
strictly before the departure of the flight it references, because the lead
time is at least one day (`randint(1, 60)` days, plus nonnegative hour jitter
in the simple variant). -/
theorem booking_precedes_departure :
    (∀ (passengerCount : Nat) (flights : List FlightS) (t : Nat → Nat → Nat),
      ∀ b ∈ generate_bookings passengerCount flights t,
        ∃ f ∈ flights, f.id = b.flightId ∧ b.date < f.dep) ∧
    (∀ (passengers : List PassengerE) (flights : List FlightE) (t : Nat → Nat → Nat),
      ∀ b ∈ generate_realistic_bookings passengers flights t,
        ∃ f ∈ flights, f.id = b.flightId ∧ b.date < f.dep) := by
  constructor
  · intro passengerCount flights t b hb
    obtain ⟨r, hrmem, hpid, hfid, hdate, hseat⟩ := mem_assignIdsS 1 _ b hb
    obtain ⟨p, hp, hrp⟩ := List.mem_flatMap.mp hrmem
    obtain ⟨hr1, f, hf, hfid', hdate'⟩ := bookingsForPassengerS_props flights p (t p) r hrp
    exact ⟨f, hf, by rw [hfid]; exact hfid', by rw [hdate]; exact hdate'⟩
  · intro passengers flights t b hb
    obtain ⟨r, hrmem, hpid, hfid, hdate, hseat⟩ := mem_assignIdsE 1 _ b hb
    obtain ⟨qp, hqp, hrp⟩ := List.mem_flatMap.mp hrmem
    obtain ⟨hr1, f, hf, hfid', hdate'⟩ :=
      bookingsForPassengerE_props flights qp.2.id (t qp.1) r hrp
    exact ⟨f, hf, by rw [hfid]; exact hfid', by rw [hdate]; exact hdate'⟩

theorem booking_precedes_departure_witness :
    ((generate_bookings 1 [⟨1, "AA1000", "JFK", "LAX", 10000, 10400⟩] (fun _ _ => 0)).getD
      (0 % (generate_bookings 1 [⟨1, "AA1000", "JFK", "LAX", 10000, 10400⟩]
        (fun _ _ => 0)).length) ⟨0, 0, 0, 0, ""⟩).date < 10000 := by
  have hlen : (generate_bookings 1 [⟨1, "AA1000", "JFK", "LAX", 10000, 10400⟩]
      (fun _ _ => 0)).length = 1 := by
    with_unfolding_all decide
  have hne : generate_bookings 1 [⟨1, "AA1000", "JFK", "LAX", 10000, 10400⟩]
      (fun _ _ => 0) ≠ [] := by
    intro hh
    rw [hh] at hlen
    simp at hlen
  have hmem := getD_mod_mem (generate_bookings 1
    [⟨1, "AA1000", "JFK", "LAX", 10000, 10400⟩] (fun _ _ => 0)) 0 ⟨0, 0, 0, 0, ""⟩ hne
  obtain ⟨f, hf, hfid, hdate⟩ := booking_precedes_departure.1 1
    [⟨1, "AA1000", "JFK", "LAX", 10000, 10400⟩] (fun _ _ => 0) _ hmem
  obtain rfl := List.mem_singleton.mp hf
  exact hdate

/-- Claim C4: a successful run of either passenger generator returns exactly
`count` records, with ids exactly `1..count` in order, and pairwise-distinct
emails — distinctness holds by construction because a candidate email is only
accepted when it is not in the per-run `used_emails` set. -/
theorem passenger_sets_wellformed :
    (∀ (count : Nat) (t : Nat → Nat → Nat) (ps : List PassengerS),
      generate_passengers count t = some ps →
        ps.length = count ∧ ps.map (·.id) = (List.range count).map (· + 1) ∧
          (ps.map (·.email)).Nodup) ∧
    (∀ (count : Nat) (tS : Nat → Nat → String) (tI : Nat → Nat → Nat)
        (ps : List PassengerE),
      generate_synthetic_passengers count tS tI = some ps →
        ps.length = count ∧ ps.map (·.id) = (List.range count).map (· + 1) ∧
          (ps.map (·.email)).Nodup) := by
  constructor
  · intro count t ps h
    obtain ⟨hids, hnd, _⟩ := genPassSimpleGo_spec t _ _ ps h
    refine ⟨?_, hids, hnd⟩
    have := congrArg List.length hids
    simpa using this
  · intro count tS tI ps h
    obtain ⟨hids, hnd, _⟩ := genPassEnhGo_spec tS tI _ _ _ ps h
    refine ⟨?_, hids, hnd⟩
    have := congrArg List.length hids
    simpa using this

theorem passenger_sets_wellformed_witness :
    ((generate_passengers 2 (fun _ _ => 0)).getD []).length = 2 ∧
      (((generate_passengers 2 (fun _ _ => 0)).getD []).map (·.email)).Nodup ∧
      ((generate_synthetic_passengers 2 (fun _ _ => "Ada") (fun _ _ => 0)).getD []).length
        = 2 := by
  obtain ⟨h1, _, h2⟩ := passenger_sets_wellformed.1 2 (fun _ _ => 0)
    ((generate_passengers 2 (fun _ _ => 0)).getD []) (by with_unfolding_all decide)
  obtain ⟨h3, _, _⟩ := passenger_sets_wellformed.2 2 (fun _ _ => "Ada") (fun _ _ => 0)
    ((generate_synthetic_passengers 2 (fun _ _ => "Ada") (fun _ _ => 0)).getD [])
    (by with_unfolding_all decide)
  exact ⟨h1, h2, h3⟩

/-- Claim C5: the email-uniqueness retry loop terminates for every count and
every sequence of drawn names.  In the simple variant the first candidate
already carries the loop index as a digit suffix and pool names contain no
digits or underscores, so it is never in the used set; in the enhanced
variant candidates carry a strictly increasing counter, so they are pairwise
distinct and at most `|used| + 1 ≤ count + 1` tests are needed — a provable
retry bound for each variant. -/
theorem email_retry_terminates :
    (∀ (count : Nat) (t : Nat → Nat → Nat),
      (generate_passengers count t).isSome = true) ∧
    (∀ (count : Nat) (tS : Nat → Nat → String) (tI : Nat → Nat → Nat),
      (generate_synthetic_passengers count tS tI).isSome = true) := by
  constructor
  · intro count t
    apply genPassSimpleGo_isSome
    · exact (List.nodup_range count).map (fun a b h => by omega)
    · intro e he
      exact absurd he (List.not_mem_nil e)
  · intro count tS tI
    apply genPassEnhGo_isSome
    simp

/-- Claim C6 (code bug): for an out-of-range scale factor, `main()` prints the
error, performs no generation work and executes `return 1` — but the module
guard is a bare `main()` call that discards the return value, so the process
exit status is 0, not the non-zero status the spec requires.  (The author
knew the correct idiom: the `except` branch of `main` calls `sys.exit(1)`.) -/
theorem invalid_scale_exit_status_eval :
    (mainEnhanced 0 false).errorReported = true ∧
      (mainEnhanced 0 false).generationRan = false ∧
      processExitStatus (mainEnhanced 0 false).exit = 0 ∧
      processExitStatus (mainEnhanced 1001 false).exit = 0 := by
  decide

/-- Claim C7 (counterexample): fixing the `random`-module tape alone does not
make runs reproducible.  Two enhanced-loader runs with identical integer
tapes but different Faker name streams (Faker keeps its own generator,
unseeded by `random.seed`) produce different passenger sets, and two
simple-variant runs with identical tapes on different days (the schedule
anchors at `datetime.date.today()`) produce different flights. -/
theorem fixed_seed_runs_differ :
    (generate_synthetic_passengers 1 (fun _ _ => "Alice") (fun _ _ => 0)
      ≠ generate_synthetic_passengers 1 (fun _ _ => "Bob") (fun _ _ => 0)) ∧
    (generate_flights 1 0 (fun _ _ => 0) ≠ generate_flights 1 1 (fun _ _ => 0)) := by
  constructor <;> with_unfolding_all decide

/-- Claim C7 (amended): the pipeline is deterministic in all its actual
inputs: runs with pointwise-equal random tapes (random module and Faker) and
the same current date produce identical output. -/
theorem run_output_depends_only_on_tapes_and_date :
    ∀ (count : Nat) (baseDate : Int) (tS tS' : Nat → Nat → String)
      (tI tI' t t' : Nat → Nat → Nat),
      (∀ i k, tS i k = tS' i k) → (∀ i k, tI i k = tI' i k) → (∀ i k, t i k = t' i k) →
      generate_synthetic_passengers count tS tI
          = generate_synthetic_passengers count tS' tI' ∧
        generate_flights count baseDate t = generate_flights count baseDate t' := by
  intro count baseDate tS tS' tI tI' t t' hS hI ht
  have h1 : tS = tS' := funext fun i => funext fun k => hS i k
  have h2 : tI = tI' := funext fun i => funext fun k => hI i k
  have h3 : t = t' := funext fun i => funext fun k => ht i k
  subst h1; subst h2; subst h3
  exact ⟨rfl, rfl⟩

theorem run_output_depends_only_on_tapes_and_date_witness :
    generate_synthetic_passengers 1 (fun _ _ => "Ada") (fun _ _ => 0)
        = generate_synthetic_passengers 1 (fun _ _ => "Ada") (fun _ _ => 0) ∧
      generate_flights 1 0 (fun _ _ => 0) = generate_flights 1 0 (fun _ _ => 0) :=
  run_output_depends_only_on_tapes_and_date 1 0 (fun _ _ => "Ada") (fun _ _ => "Ada")
    (fun _ _ => 0) (fun _ _ => 0) (fun _ _ => 0) (fun _ _ => 0)
    (fun _ _ => rfl) (fun _ _ => rfl) (fun _ _ => rfl)

/-- Claim C8: both duration estimators are symmetric on every pair present in
their fixed lookup table: the lookup tries `(a,b)` then `(b,a)`, and the few
pairs present in both directions carry equal values. -/
theorem duration_estimator_symmetric :
    (∀ (p : String × String) (v : Nat), (p, v) ∈ distanceFactors →
      ∀ t₁ t₂, calculate_flight_duration p.1 p.2 t₁ = calculate_flight_duration p.2 p.1 t₂) ∧
    (∀ (p : String × String) (v : ℚ), (p, v) ∈ durationMap →
      ∀ u₁ u₂, estimateFlightDuration p.1 p.2 u₁ = estimateFlightDuration p.2 p.1 u₂) := by
  constructor
  · intro p v hm t₁ t₂
    obtain ⟨hne, h1, h2⟩ := distanceFactors_symm (p, v) hm
    rw [calculate_flight_duration_eq hne h1 t₁,
      calculate_flight_duration_eq (fun hh => hne hh.symm) h2 t₂]
  · intro p v hm u₁ u₂
    obtain ⟨h1, h2⟩ := durationMap_symm (p, v) hm
    rw [estimateFlightDuration_eq h1 u₁, estimateFlightDuration_eq h2 u₂]

theorem duration_estimator_symmetric_witness :
    calculate_flight_duration "JFK" "LAX" 0 = calculate_flight_duration "LAX" "JFK" 3 ∧
      estimateFlightDuration "SEA" "SFO" 0 = estimateFlightDuration "SFO" "SEA" 5 :=
  ⟨duration_estimator_symmetric.1 ("JFK", "LAX") 6 (by decide) 0 3,
   duration_estimator_symmetric.2 ("SEA", "SFO") 2 (by decide) 0 5⟩

/-- Claim C9: the fallback catalog always provides at least 10 locations
(it has exactly 15) and synthesizes the complete directed all-pairs route set
over them excluding self-pairs, so it is nonempty and every fallback route
has distinct endpoints drawn from the built-in location table — for every
possible sequence of carrier draws. -/
theorem fallback_catalog_wellformed :
    10 ≤ fallbackAirportCodes.length ∧
    ∀ tA : String → String → Nat,
      loadFallbackRoutes tA ≠ [] ∧
      (∀ r ∈ loadFallbackRoutes tA, r.origin ≠ r.destination ∧
        r.origin ∈ fallbackAirportCodes ∧ r.destination ∈ fallbackAirportCodes) ∧
      (∀ a ∈ fallbackAirportCodes, ∀ b ∈ fallbackAirportCodes, a ≠ b →
        ∃ r ∈ loadFallbackRoutes tA, r.origin = a ∧ r.destination = b) := by
  refine ⟨by decide, fun tA => ⟨?_, ?_, loadFallbackRoutes_complete tA⟩⟩
  · obtain ⟨r, hr, _⟩ := loadFallbackRoutes_complete tA "JFK" (by decide) "LAX"
      (by decide) (by decide)
    exact List.ne_nil_of_mem hr
  · intro r hr
    obtain ⟨h1, h2, h3⟩ := loadFallbackRoutes_sound tA r hr
    exact ⟨h3, h1, h2⟩

theorem fallback_catalog_wellformed_witness :
    10 ≤ fallbackAirportCodes.length ∧
      (⟨"AA", "JFK", "LAX"⟩ : Route).origin ≠ (⟨"AA", "JFK", "LAX"⟩ : Route).destination :=
  ⟨fallback_catalog_wellformed.1,
   (((fallback_catalog_wellformed.2 (fun _ _ => 0)).2.1 ⟨"AA", "JFK", "LAX"⟩
     (by with_unfolding_all decide)).1)⟩

/-- Claim C10: in both booking generators, every booking references a
passenger id and a flight id from the generated sets (by construction), and —
when flight ids are distinct (as generated) — the flights booked for any one
passenger are pairwise distinct, their number clamped to the flight set's
size when it is smaller than the drawn per-passenger count. -/
theorem booking_referential_integrity :
    (∀ (passengerCount : Nat) (flights : List FlightS) (t : Nat → Nat → Nat),
      (∀ b ∈ generate_bookings passengerCount flights t,
        b.passengerId ∈ (List.range passengerCount).map (· + 1) ∧
          b.flightId ∈ flights.map (·.id)) ∧
      ((flights.map (·.id)).Nodup →
        ∀ p ∈ (List.range passengerCount).map (· + 1),
          (((generate_bookings passengerCount flights t).filter
            (fun b => b.passengerId = p)).map (fun b => b.flightId)).Nodup ∧
          ((generate_bookings passengerCount flights t).filter
            (fun b => b.passengerId = p)).length
              = min ([1, 2, 3].getD (t p 0 % 3) 0) flights.length)) ∧
    (∀ (passengers : List PassengerE) (flights : List FlightE) (t : Nat → Nat → Nat),
      (∀ b ∈ generate_realistic_bookings passengers flights t,
        b.passengerId ∈ passengers.map (·.id) ∧ b.flightId ∈ flights.map (·.id)) ∧
      ((passengers.map (·.id)).Nodup → (flights.map (·.id)).Nodup →
        ∀ qp ∈ passengers.enum,
          (((generate_realistic_bookings passengers flights t).filter
            (fun b => b.passengerId = qp.2.id)).map (fun b => b.flightId)).Nodup ∧
          ((generate_realistic_bookings passengers flights t).filter
            (fun b => b.passengerId = qp.2.id)).length
              = min (numBookingsE (t qp.1 0) (t qp.1 1)) flights.length)) := by
  constructor
  · intro passengerCount flights t
    constructor
    · intro b hb
      obtain ⟨r, hrmem, hpid, hfid, _, _⟩ := mem_assignIdsS 1 _ b hb
      obtain ⟨p, hp, hrp⟩ := List.mem_flatMap.mp hrmem
      obtain ⟨hr1, f, hf, hfid2, _⟩ := bookingsForPassengerS_props flights p (t p) r hrp
      refine ⟨?_, ?_⟩
      · rw [hpid, hr1]
        exact hp
      · rw [hfid, ← hfid2]
        exact List.mem_map_of_mem _ hf
    · intro hids p hp
      have hnody : ((((List.range passengerCount).map (· + 1)).map
          (fun q : Nat => q))).Nodup := by
        simpa using (List.nodup_range passengerCount).map
          (fun a b (h : a + 1 = b + 1) => by omega)
      have hflat := filter_flatMap_group (fun r => r.1) (fun q : Nat => q)
        (fun q => bookingsForPassengerS flights q (t q))
        (fun q r hr => (bookingsForPassengerS_props flights q (t q) r hr).1)
        ((List.range passengerCount).map (· + 1)) hnody p hp
      simp only [] at hflat
      have hgroup : ((generate_bookings passengerCount flights t).filter
          (fun b => b.passengerId = p)).map (fun b => b.flightId)
            = (bookingsForPassengerS flights p (t p)).map (fun r => r.2.1) := by
        rw [generate_bookings, filter_assignIdsS, hflat]
      constructor
      · rw [hgroup]
        exact bookingsForPassengerS_fids_nodup hids p (t p)
      · have hlen : ((generate_bookings passengerCount flights t).filter
            (fun b => b.passengerId = p)).length
              = (bookingsForPassengerS flights p (t p)).length := by
          have e1 := congrArg List.length hgroup
          rwa [List.length_map, List.length_map] at e1
        rw [hlen, bookingsForPassengerS_length]
  · intro passengers flights t
    constructor
    · intro b hb
      obtain ⟨r, hrmem, hpid, hfid, _, _⟩ := mem_assignIdsE 1 _ b hb
      obtain ⟨qp, hqp, hrp⟩ := List.mem_flatMap.mp hrmem
      obtain ⟨hr1, f, hf, hfid2, _⟩ :=
        bookingsForPassengerE_props flights qp.2.id (t qp.1) r hrp
      refine ⟨?_, ?_⟩
      · rw [hpid, hr1]
        exact List.mem_map_of_mem _ (mem_of_mem_enum hqp)
      · rw [hfid, ← hfid2]
        exact List.mem_map_of_mem _ hf
    · intro hpids hids qp hqp
      have hnody : ((passengers.enum.map (fun q : Nat × PassengerE => q.2.id))).Nodup := by
        rw [enum_map_snd_comp]
        exact hpids
      have hflat := filter_flatMap_group (fun r => r.1)
        (fun q : Nat × PassengerE => q.2.id)
        (fun q => bookingsForPassengerE flights q.2.id (t q.1))
        (fun q r hr => (bookingsForPassengerE_props flights q.2.id (t q.1) r hr).1)
        passengers.enum hnody qp hqp
      simp only [] at hflat
      have hgroup : ((generate_realistic_bookings passengers flights t).filter
          (fun b => b.passengerId = qp.2.id)).map (fun b => b.flightId)
            = (bookingsForPassengerE flights qp.2.id (t qp.1)).map (fun r => r.2.1) := by
        rw [generate_realistic_bookings, filter_assignIdsE, hflat]
      constructor
      · rw [hgroup]
        exact bookingsForPassengerE_fids_nodup hids qp.2.id (t qp.1)
      · have hlen : ((generate_realistic_bookings passengers flights t).filter
            (fun b => b.passengerId = qp.2.id)).length
              = (bookingsForPassengerE flights qp.2.id (t qp.1)).length := by
          have e1 := congrArg List.length hgroup
          rwa [List.length_map, List.length_map] at e1
        rw [hlen, bookingsForPassengerE_length]

theorem booking_referential_integrity_witness :
    ((generate_bookings 1 [⟨1, "AA1000", "JFK", "LAX", 10000, 10400⟩] (fun _ _ => 0)).getD
      (0 % (generate_bookings 1 [⟨1, "AA1000", "JFK", "LAX", 10000, 10400⟩]
        (fun _ _ => 0)).length) ⟨0, 0, 0, 0, ""⟩).passengerId
      ∈ (List.range 1).map (· + 1) ∧
    ((generate_bookings 1 [⟨1, "AA1000", "JFK", "LAX", 10000, 10400⟩]
      (fun _ _ => 0)).filter (fun b => b.passengerId = 1)).length = 1 := by
  have hlen : (generate_bookings 1 [⟨1, "AA1000", "JFK", "LAX", 10000, 10400⟩]
      (fun _ _ => 0)).length = 1 := by
    with_unfolding_all decide
  have hne : generate_bookings 1 [⟨1, "AA1000", "JFK", "LAX", 10000, 10400⟩]
      (fun _ _ => 0) ≠ [] := by
    intro hh
    rw [hh] at hlen
    simp at hlen
  have hmem := getD_mod_mem (generate_bookings 1
    [⟨1, "AA1000", "JFK", "LAX", 10000, 10400⟩] (fun _ _ => 0)) 0 ⟨0, 0, 0, 0, ""⟩ hne
  refine ⟨((booking_referential_integrity.1 1
    [⟨1, "AA1000", "JFK", "LAX", 10000, 10400⟩] (fun _ _ => 0)).1 _ hmem).1, ?_⟩
  have h := ((booking_referential_integrity.1 1
    [⟨1, "AA1000", "JFK", "LAX", 10000, 10400⟩] (fun _ _ => 0)).2
    (by decide) 1 (by decide)).2
  simpa using h

end AirlineDemo
